import Mathlib

/-!
# Verification of the Vaarta conversational form-filling engine

Shallow embedding of `backend/chat_engine.py` (the conversational
extraction-and-validation pipeline) and proofs about the claims of the
specification.

Modelling conventions:
* Python strings are modelled as `List Char` (`Str`); `String` literals are
  converted with `String.toList` at the boundary.
* Python's ASCII-only case mapping on the characters that matter here is
  modelled with `Char.toLower` / `Char.toUpper` (identical on ASCII).
* Regular expressions of the source are modelled by explicit scanners that
  implement the same matching discipline (word boundaries `\b` are boundaries
  between word characters `[A-Za-z0-9_]` and non-word characters; `re.UNICODE`
  classes are modelled by their ASCII parts, which is exact on every input
  considered in the theorems below).
* The floating-point expression `int(done / total * 100)` of the progress
  computation is modelled exactly: both the division and the product are
  rounded to IEEE binary64 (round to nearest, ties to even, with gradual
  underflow), and `int` truncates the resulting nonnegative value.
* Extracted / collected values are strings or booleans (`Val`); sessions store
  absent fields as missing keys.
-/

namespace Vaarta

abbrev Str := List Char

/-- ASCII word character, the model of `\w` for `\b` boundaries. -/
def isWordChar (c : Char) : Bool := c.isAlphanum || c = '_'

/-- Python `str.strip()` on a character list. -/
def pyStrip (l : Str) : Str :=
  ((l.dropWhile Char.isWhitespace).reverse.dropWhile Char.isWhitespace).reverse

/-- Python `str.lower()` (ASCII part). -/
def lowerStr (l : Str) : Str := l.map Char.toLower

/-- Python `str.upper()` (ASCII part). -/
def upperStr (l : Str) : Str := l.map Char.toUpper

/-- Python `str.rstrip(chars)`: drop trailing characters belonging to `cs`. -/
def pyRstrip (l : Str) (cs : Str) : Str :=
  (l.reverse.dropWhile (fun c => cs.contains c)).reverse

/-- Does `s` start with `p`? (model of an anchored literal match). -/
def strHasPref : Str → Str → Bool
  | _, [] => true
  | [], _ :: _ => false
  | c :: s, d :: p => c == d && strHasPref s p

/-- Does `sub` occur somewhere in `s`? (model of Python's `in` on strings). -/
def strContains : Str → Str → Bool
  | s, sub =>
    match s with
    | [] => strHasPref [] sub
    | _ :: rest => strHasPref s sub || strContains rest sub

/-- Python `sub in s` on `String`s. -/
def containsSub (s sub : String) : Bool := strContains s.toList sub.toList

/-- Python `str.split()` : split on whitespace runs, no empty tokens.
Fuel-based so that it reduces in the kernel. -/
def splitWsFuel : Nat → Str → List Str
  | 0, _ => []
  | fuel + 1, l =>
    let l' := l.dropWhile Char.isWhitespace
    if l' = [] then []
    else
      let t := l'.takeWhile (fun c => !c.isWhitespace)
      t :: splitWsFuel fuel (l'.dropWhile (fun c => !c.isWhitespace))

def splitWs (l : Str) : List Str := splitWsFuel (l.length + 1) l

/-- Split on runs of whitespace or hyphens (model of `re.split(r"[\s\-]+", ·)`;
boundary empty strings of `re.split` are dropped, which is equivalent for the
lookup-and-skip loop consuming the tokens). -/
def splitWsHyphenFuel : Nat → Str → List Str
  | 0, _ => []
  | fuel + 1, l =>
    match l.dropWhile (fun c => c.isWhitespace || c = '-') with
    | [] => []
    | l' =>
      let t := l'.takeWhile (fun c => !(c.isWhitespace || c = '-'))
      t :: splitWsHyphenFuel fuel (l'.dropWhile (fun c => !(c.isWhitespace || c = '-')))

def splitWsHyphen (l : Str) : List Str := splitWsHyphenFuel (l.length + 1) l

/-- Model of `" ".join(tokens)`. -/
def joinSp : List Str → Str
  | [] => []
  | [t] => t
  | t :: ts => t ++ ' ' :: joinSp ts

/-- Numeric value of a digit string (the digits are already checked). -/
def digitsToNat (l : Str) : Nat :=
  l.foldl (fun acc c => acc * 10 + (c.toNat - 48)) 0

/-- The decimal digit characters. -/
def digitChar : Nat → Char
  | 0 => '0' | 1 => '1' | 2 => '2' | 3 => '3' | 4 => '4'
  | 5 => '5' | 6 => '6' | 7 => '7' | 8 => '8' | _ => '9'

/-- Decimal rendering of a natural number, the model of Python `str(n)`. -/
def natDigitsFuel : Nat → Nat → Str
  | 0, _ => []
  | _ + 1, 0 => []
  | fuel + 1, n => natDigitsFuel fuel (n / 10) ++ [digitChar (n % 10)]

def natToStr (n : Nat) : Str :=
  if n = 0 then ['0'] else natDigitsFuel (n + 1) n

/-- Python `str.replace(sub, repl, count)`: replace the first `count`
left-to-right non-overlapping occurrences (`count = none` means all). -/
def pyReplaceFuel : Nat → Str → Str → Str → Option Nat → Str
  | 0, s, _, _, _ => s
  | _ + 1, s, _, _, some 0 => s
  | fuel + 1, s, sub, repl, count =>
    match s with
    | [] => []
    | c :: rest =>
      if sub ≠ [] && strHasPref s sub then
        repl ++ pyReplaceFuel fuel (s.drop sub.length) sub repl
          (match count with | none => none | some (k + 1) => some k | some 0 => some 0)
      else
        c :: pyReplaceFuel fuel rest sub repl count

def pyReplace (s sub repl : Str) (count : Option Nat) : Str :=
  pyReplaceFuel (s.length + 1) s sub repl count

/-- One step of a word-bounded alternation match: does some alternative `w`
match at the head of `s` with a word boundary after it? Alternatives are
tried in order, as Python's regex alternation does. -/
def wbAltHere (prevIsWord : Bool) (alts : List Str) (s : Str) : Option Str :=
  if prevIsWord then none
  else
    alts.findSome? fun w =>
      if w ≠ [] && strHasPref s w &&
          (match (s.drop w.length).head? with
           | none => true
           | some c => !isWordChar c) then
        some w
      else none

/-- Model of `re.sub(r"\b(alt1|alt2|…)\b", repl, s)`: replace every
word-bounded occurrence of an alternative by `repl`; scanning resumes after
the match. -/
def subWbFuel : Nat → Bool → List Str → Str → Str → Str
  | 0, _, _, _, s => s
  | fuel + 1, prevIsWord, alts, repl, s =>
    match s with
    | [] => []
    | c :: rest =>
      match wbAltHere prevIsWord alts s with
      | some w =>
        repl ++ subWbFuel fuel (isWordChar (w.getLastD 'x')) alts repl (s.drop w.length)
      | none => c :: subWbFuel fuel (isWordChar c) alts repl rest

def subWb (alts : List Str) (repl : Str) (s : Str) : Str :=
  subWbFuel (s.length + 1) false alts repl s

/-- Model of `re.search(r"\b(alt1|…)\b", s) is not None`. -/
def searchWbFuel : Nat → Bool → List Str → Str → Bool
  | 0, _, _, _ => false
  | fuel + 1, prevIsWord, alts, s =>
    match s with
    | [] => (wbAltHere prevIsWord alts []).isSome
    | c :: rest =>
      (wbAltHere prevIsWord alts s).isSome || searchWbFuel fuel (isWordChar c) alts rest

def searchWb (alts : List Str) (s : Str) : Bool :=
  searchWbFuel (s.length + 1) false alts s

end Vaarta

namespace Vaarta

/-! ## `_WORD_NUMBERS` and `_words_to_number` (chat_engine.py:127-171) -/

def WORD_NUMBERS (t : Str) : Option Nat :=
  match String.mk t with
  | "zero" => some 0 | "one" => some 1 | "two" => some 2 | "three" => some 3
  | "four" => some 4 | "five" => some 5 | "six" => some 6 | "seven" => some 7
  | "eight" => some 8 | "nine" => some 9 | "ten" => some 10 | "eleven" => some 11
  | "twelve" => some 12 | "thirteen" => some 13 | "fourteen" => some 14
  | "fifteen" => some 15 | "sixteen" => some 16 | "seventeen" => some 17
  | "eighteen" => some 18 | "nineteen" => some 19 | "twenty" => some 20
  | "thirty" => some 30 | "forty" => some 40 | "fifty" => some 50
  | "sixty" => some 60 | "seventy" => some 70 | "eighty" => some 80
  | "ninety" => some 90 | "hundred" => some 100 | "thousand" => some 1000
  | "lakh" => some 100000 | "lac" => some 100000 | "lakhs" => some 100000
  | "crore" => some 10000000 | "crores" => some 10000000
  | _ => none

/-- The token-accumulation loop of `_words_to_number`; state is
`(result, current)`. Note the source strips "ordinal suffixes" with
`t.rstrip("sth").rstrip("nd").rstrip("rd")`, a character-set strip. -/
def wordsLoop : List Str → Nat → Nat → Nat
  | [], result, current => result + current
  | t :: ts, result, current =>
    let t' := pyRstrip (pyRstrip (pyRstrip t ['s', 't', 'h']) ['n', 'd']) ['r', 'd']
    let n := match WORD_NUMBERS t' with
             | some n => some n
             | none => WORD_NUMBERS (pyRstrip t' ['s'])
    match n with
    | none => wordsLoop ts result current
    | some n =>
      if n = 100 then
        wordsLoop ts result ((if current = 0 then 1 else current) * 100)
      else if n ≥ 1000 then
        wordsLoop ts (result + (if current = 0 then 1 else current) * n) 0
      else
        wordsLoop ts result (current + n)

/-- `_words_to_number`: convert spoken number words to an integer. -/
def words_to_number (text : Str) : Option Nat :=
  let text := pyStrip (lowerStr text)
  let clean := text.filter (fun c => !(c = ',' || c.isWhitespace))
  if clean ≠ [] && clean.all Char.isDigit then
    some (digitsToNat clean)
  else
    let r := wordsLoop (splitWsHyphen text) 0 0
    if r > 0 then some r else none

/-! ## `parse_amount` (chat_engine.py:278-309) -/

/-- First match of `(\d+(?:\.\d+)?)\s*(lakh|lac|crore|k|thousand)?` and the
value of Python `str(int(base * mult))` for it.  `base * mult` is computed
exactly (the source's float arithmetic is exact on the inputs considered). -/
def amountNumSearchFuel : Nat → Str → Option Nat
  | 0, _ => none
  | fuel + 1, s =>
    match s with
    | [] => none
    | c :: rest =>
      if c.isDigit then
        let intRun := s.takeWhile Char.isDigit
        let afterInt := s.drop intRun.length
        let (fracRun, afterFrac) :=
          match afterInt with
          | '.' :: t =>
            if (t.takeWhile Char.isDigit) ≠ [] then
              (t.takeWhile Char.isDigit, t.dropWhile Char.isDigit)
            else ([], afterInt)
          | _ => ([], afterInt)
        let afterWs := afterFrac.dropWhile Char.isWhitespace
        let mult : Nat :=
          if strHasPref afterWs "lakh".toList then 100000
          else if strHasPref afterWs "lac".toList then 100000
          else if strHasPref afterWs "crore".toList then 10000000
          else if strHasPref afterWs "k".toList then 1000
          else if strHasPref afterWs "thousand".toList then 1000
          else 1
        let scale := (10 : Nat) ^ fracRun.length
        some ((digitsToNat intRun * scale + digitsToNat fracRun) * mult / scale)
      else
        amountNumSearchFuel fuel rest

def amountNumSearch (s : Str) : Option Nat := amountNumSearchFuel (s.length + 1) s

def AMOUNT_NOISE_WORDS : List Str :=
  ["rupees", "rupee", "rs", "inr", "per annum", "per month",
   "monthly", "annually"].map String.toList

def AMOUNT_HEDGE_WORDS : List Str :=
  ["around", "about", "approximately", "roughly"].map String.toList

/-- `parse_amount`: parse an Indian currency amount.
Returns `(value, confident)`. -/
def parse_amount (text : Str) : Option Str × Bool :=
  let textLower := lowerStr text
  let confident :=
    !(strContains textLower "around".toList) &&
    !(strContains textLower "approximately".toList) &&
    !(strContains textLower "roughly".toList) &&
    !(strContains textLower "lagbhag".toList)
  let clean := textLower.map (fun c =>
    if c = '₹' || c = '$' || c = ',' || c.isWhitespace then ' ' else c)
  let clean := subWb AMOUNT_NOISE_WORDS [' '] clean
  let clean := subWb AMOUNT_HEDGE_WORDS [' '] clean
  let clean := pyStrip clean
  match words_to_number clean with
  | some amount => (some (natToStr amount), confident)
  | none =>
    match amountNumSearch clean with
    | some v => (some (natToStr v), confident)
    | none => (none, false)

namespace DateModel

/-- Calendar dates, used both for parsed values and for `datetime.now()`
(the time-of-day part of `now` is irrelevant: a parsed date is strictly
after `now` exactly when its triple is lexicographically greater). -/
structure PyDate where
  y : Nat
  m : Nat
  d : Nat
deriving DecidableEq, Repr

def dateAfter (dt now : PyDate) : Bool :=
  now.y < dt.y || (now.y = dt.y && (now.m < dt.m || (now.m = dt.m && now.d < dt.d)))

def isLeap (y : Nat) : Bool := y % 4 = 0 && (y % 100 ≠ 0 || y % 400 = 0)

def daysInMonth (y m : Nat) : Nat :=
  if m = 2 then (if isLeap y then 29 else 28)
  else if m = 4 || m = 6 || m = 9 || m = 11 then 30
  else 31

/-- Constructibility of `datetime(year, month, day)`. -/
def pyDateValid (y m d : Nat) : Bool :=
  1 ≤ y && y ≤ 9999 && 1 ≤ m && m ≤ 12 && 1 ≤ d && d ≤ daysInMonth y m

def pad2 (n : Nat) : Str := if n < 10 then '0' :: natToStr n else natToStr n

/-- `dt.strftime("%d/%m/%Y")`. -/
def fmtDMY (d m y : Nat) : Str := pad2 d ++ '/' :: (pad2 m ++ '/' :: natToStr y)

end DateModel

export DateModel (PyDate dateAfter isLeap daysInMonth pyDateValid pad2 fmtDMY)

/-! ## `parse_date` (chat_engine.py:174-275) -/

/-- Collapse whitespace runs and strip: `re.sub(r"\s+", " ", s).strip()`. -/
def collapseWs (l : Str) : Str := joinSp (splitWs l)

/-- Alternatives of `\b(of|the|on|dated?|dob|born|birth|date)\b` in the order
Python's engine tries them (`dated?` greedily tries `dated` then `date`). -/
def DATE_NOISE_WORDS : List Str :=
  ["of", "the", "on", "dated", "date", "dob", "born", "birth"].map String.toList

def MONTH_MAP : List (Str × Nat) :=
  [("jan", 1), ("january", 1), ("feb", 2), ("february", 2), ("mar", 3),
   ("march", 3), ("apr", 4), ("april", 4), ("may", 5), ("jun", 6), ("june", 6),
   ("jul", 7), ("july", 7), ("aug", 8), ("august", 8), ("sep", 9), ("sept", 9),
   ("september", 9), ("oct", 10), ("october", 10), ("nov", 11),
   ("november", 11), ("dec", 12), ("december", 12)].map
    (fun p => (p.1.toList, p.2))

/-- Search for `\b(nineteen|twenty)\s+(\w+)(?:\s+(\w+))?\b`.
Returns `(before, centuryBase, group2, group3, after)` where `before`/`after`
are the parts of the string outside the whole match. -/
def yearWordSearchFuel : Nat → Bool → Str → Str → Option (Str × Nat × Str × Str × Str)
  | 0, _, _, _ => none
  | fuel + 1, prevIsWord, acc, s =>
    let tryHere : Option (Nat × Str × Str × Str) :=
      if prevIsWord then none
      else
        ([("nineteen".toList, 1900), ("twenty".toList, 2000)]).findSome? fun cw =>
          if strHasPref s cw.1 then
            let s1 := s.drop cw.1.length
            let ws1 := s1.takeWhile Char.isWhitespace
            if ws1 = [] then none
            else
              let s2 := s1.drop ws1.length
              let g2 := s2.takeWhile isWordChar
              if g2 = [] then none
              else
                let s3 := s2.drop g2.length
                let ws2 := s3.takeWhile Char.isWhitespace
                let g3 := (s3.drop ws2.length).takeWhile isWordChar
                if ws2 ≠ [] && g3 ≠ [] then
                  some (cw.2, g2, g3, s3.drop (ws2.length + g3.length))
                else
                  some (cw.2, g2, [], s3)
          else none
    match tryHere with
    | some (base, g2, g3, after) => some (acc.reverse, base, g2, g3, after)
    | none =>
      match s with
      | [] => none
      | c :: rest => yearWordSearchFuel fuel (isWordChar c) (c :: acc) rest

def yearWordSearch (s : Str) : Option (Str × Nat × Str × Str × Str) :=
  yearWordSearchFuel (s.length + 1) false [] s

/-- Search for the first word-bounded digit run satisfying `pred`
(model of `re.search(r"\b(\d{..})\b", s)` patterns: a maximal digit run
whose neighbours are non-word characters). -/
def freeDigitRunSearchFuel (pred : Str → Bool) : Nat → Bool → Str → Option Str
  | 0, _, _ => none
  | fuel + 1, prevIsWord, s =>
    match s with
    | [] => none
    | c :: rest =>
      if !prevIsWord && c.isDigit then
        let run := s.takeWhile Char.isDigit
        let after := (s.drop run.length).head?
        if (match after with | none => true | some a => !isWordChar a) && pred run then
          some run
        else
          freeDigitRunSearchFuel pred fuel (isWordChar c) rest
      else
        freeDigitRunSearchFuel pred fuel (isWordChar c) rest

def freeDigitRunSearch (pred : Str → Bool) (s : Str) : Option Str :=
  freeDigitRunSearchFuel pred (s.length + 1) false s

/-- Match `(\d{1,4})<sep>(\d{1,2})<sep>(\d{2,4})` at the head of `s`. -/
def numDateHere (sep : Char → Bool) (s : Str) : Option (Nat × Nat × Nat) :=
  let r1 := s.takeWhile Char.isDigit
  if 1 ≤ r1.length && r1.length ≤ 4 then
    match s.drop r1.length with
    | c1 :: t1 =>
      if sep c1 then
        let r2 := t1.takeWhile Char.isDigit
        if 1 ≤ r2.length && r2.length ≤ 2 then
          match t1.drop r2.length with
          | c2 :: t2 =>
            if sep c2 then
              let r3 := t2.takeWhile Char.isDigit
              if 2 ≤ r3.length then
                some (digitsToNat r1, digitsToNat r2, digitsToNat (r3.take 4))
              else none
            else none
          | [] => none
        else none
      else none
    | [] => none
  else none

def numDateSearchFuel (sep : Char → Bool) : Nat → Str → Option (Nat × Nat × Nat)
  | 0, _ => none
  | fuel + 1, s =>
    match numDateHere sep s with
    | some r => some r
    | none =>
      match s with
      | [] => none
      | _ :: rest => numDateSearchFuel sep fuel rest

def numDateSearch (sep : Char → Bool) (s : Str) : Option (Nat × Nat × Nat) :=
  numDateSearchFuel sep (s.length + 1) s

/-- Python truthiness of `all([day, month, year])` for optional numbers. -/
def truthy (o : Option Nat) : Bool := match o with | some n => n ≠ 0 | none => false

/-- Everything of `parse_date` before the `datetime` sanity check: resolve
`(day, month, year, confident)` or fail. -/
def parse_date_resolve (text : Str) : Option (Nat × Nat × Nat × Bool) :=
  let textClean := pyStrip (lowerStr text)
  let textClean := collapseWs (subWb DATE_NOISE_WORDS [' '] textClean)
  -- word-form year ("twenty twenty six")
  let (year, textClean) :=
    match yearWordSearch textClean with
    | some (before, base, rest, extra, after) =>
      let decade := words_to_number rest
      let units : Nat :=
        (if extra ≠ [] then words_to_number extra else some 0).getD 0
      ((match decade with
        | some dec => some (base + dec + units)
        | none => none),
       pyStrip (before ++ after))
    | none => (none, textClean)
  -- 4-digit year
  let (year, textClean) :=
    match year with
    | some _ => (year, textClean)
    | none =>
      match freeDigitRunSearch
          (fun run => run.length = 4 &&
            (strHasPref run "19".toList || strHasPref run "20".toList)) textClean with
      | some run => (some (digitsToNat run), pyStrip (pyReplace textClean run [] none))
      | none => (none, textClean)
  -- 2-digit year (ambiguous, low confidence)
  let (year, textClean, confident) :=
    match year with
    | some _ => (year, textClean, true)
    | none =>
      match freeDigitRunSearch (fun run => run.length = 2) textClean with
      | some run =>
        let yr2 := digitsToNat run
        (some (if yr2 ≥ 30 then 1900 + yr2 else 2000 + yr2),
         pyStrip (pyReplace textClean run [] (some 1)), false)
      | none => (none, textClean, true)
  -- month name
  let (month, textClean) :=
    match MONTH_MAP.findSome? (fun p =>
        if searchWb [p.1] textClean then some p else none) with
    | some p => (some p.2, pyStrip (subWb [p.1] [] textClean))
    | none => (none, textClean)
  -- day (word form, then 1-2 digit run)
  let day : Option Nat :=
    match words_to_number textClean with
    | some n => if 1 ≤ n && n ≤ 31 then some n else dayFromDigits textClean
    | none => dayFromDigits textClean
  -- numeric fallback on the raw lowered text
  let (day, month, year, confident) :=
    if truthy day && truthy month && truthy year then (day, month, year, confident)
    else
      match ([(fun c => c == '/'), (fun c => c == '-'), (fun c => c == '.'),
              (fun c => c.isWhitespace)] : List (Char → Bool)).findSome?
          (fun sep => numDateSearch sep (lowerStr text)) with
      | some (a, b, c) =>
        if a > 31 then (some c, some b, some a, confident)
        else if c > 31 then
          let yr := if c ≥ 30 then 1900 + c
                    else if c < 100 then 2000 + c else c
          if b > 12 then (some b, some a, some yr, confident)
          else if a > 12 then (some a, some b, some yr, confident)
          else (some a, some b, some yr, false)
        else (day, month, year, confident)
      | none => (day, month, year, confident)
  if truthy day && truthy month && truthy year then
    some (day.getD 0, month.getD 0, year.getD 0, confident)
  else none
where
  dayFromDigits (textClean : Str) : Option Nat :=
    match freeDigitRunSearch (fun run => run.length = 1 || run.length = 2) textClean with
    | some run =>
      let d := digitsToNat run
      if 1 ≤ d && d ≤ 31 then some d else none
    | none => none

/-- The `datetime` sanity check and the future-birthdate confidence
adjustment at the end of `parse_date` (chat_engine.py:266-275). -/
def parse_date_finalize (now : PyDate) (text : Str) :
    Option (Nat × Nat × Nat × Bool) → Option Str × Bool
  | none => (none, false)
  | some (d, m, y, confident) =>
    if pyDateValid y m d then
      let confident :=
        if (dateAfter ⟨y, m, d⟩ now && strContains (lowerStr text) "dob".toList)
            || strContains (lowerStr text) "birth".toList then false
        else confident
      (some (fmtDMY d m y), confident)
    else (none, false)

/-- `parse_date`: parse a date from natural language.
Returns `(DD/MM/YYYY string or none, is_confident)`. -/
def parse_date (now : PyDate) (text : Str) : Option Str × Bool :=
  parse_date_finalize now text (parse_date_resolve text)

/-! ## `parse_name` (chat_engine.py:312-336) -/

/-- The apostrophe character, kept out of string literals. -/
def apoC : Char := Char.ofNat 39

def apoS : String := String.mk [apoC]

/-- Case-insensitive variant of the word-bounded alternation matcher
(model of `re.sub(..., flags=re.IGNORECASE)`); matched text is removed. -/
def wbAltHereCI (prevIsWord : Bool) (alts : List Str) (s : Str) : Option Nat :=
  if prevIsWord then none
  else
    alts.findSome? fun w =>
      if w ≠ [] && strHasPref (lowerStr (s.take w.length)) (lowerStr w) &&
          (s.take w.length).length = w.length &&
          (match (s.drop w.length).head? with
           | none => true
           | some c => !isWordChar c) then
        some w.length
      else none

def subWbCIFuel : Nat → Bool → List Str → Str → Str
  | 0, _, _, s => s
  | fuel + 1, prevIsWord, alts, s =>
    match s with
    | [] => []
    | c :: rest =>
      match wbAltHereCI prevIsWord alts s with
      | some n =>
        subWbCIFuel fuel (isWordChar ((s.take n).getLastD 'x')) alts (s.drop n)
      | none => c :: subWbCIFuel fuel (isWordChar c) alts rest

def subWbCI (alts : List Str) (s : Str) : Str :=
  subWbCIFuel (s.length + 1) false alts s

def NAME_NOISE_PHRASES : List Str :=
  ["my name is", "i am", "mera naam", "naam hai",
   "i" ++ apoS ++ "m", "mujhe"].map String.toList

/-- Python `str.capitalize()`: first character upper-cased, rest lower-cased. -/
def pyCapitalize : Str → Str
  | [] => []
  | c :: rest => Char.toUpper c :: lowerStr rest

/-- `parse_name`: clean and title-case a name. -/
def parse_name (text : Str) : Option Str × Bool :=
  let clean := pyStrip (subWbCI NAME_NOISE_PHRASES text)
  let clean := pyStrip (clean.filter (fun c =>
    c.isAlpha || c.isWhitespace || c = '.' || c = '-'))
  if clean = [] then (none, false)
  else
    let parts := splitWs clean
    let confident := true
    let confident :=
      if parts.length = 1 && (parts.headD []).length ≤ 2 then false else confident
    let confident :=
      if parts.any (fun p => p ≠ [] && p.all Char.isDigit) then false else confident
    (some (joinSp (parts.map pyCapitalize)), confident)

/-! ## Data model: values, dict semantics, schema, session -/

/-- An extracted / collected value: a string or a boolean (the two value
shapes the engine produces and persists). -/
inductive Val where
  | s (v : String)
  | b (v : Bool)
deriving DecidableEq, Repr

/-- Python `str(val)` on a collected value. -/
def pyStrOfVal : Val → String
  | .s v => v
  | .b true => "True"
  | .b false => "False"

/-- Insertion-ordered string-keyed dictionaries (Python `dict`). -/
abbrev PyDict := List (String × Val)

def pyGet (d : PyDict) (k : String) : Option Val :=
  (d.find? (fun e => e.1 == k)).map (·.2)

def pyHasKey (d : PyDict) (k : String) : Bool := d.any (fun e => e.1 == k)

/-- `d[k] = v`: overwrite in place, else append (Python dict update). -/
def pySet (d : PyDict) (k : String) (v : Val) : PyDict :=
  if pyHasKey d k then d.map (fun e => if e.1 == k then (k, v) else e)
  else d ++ [(k, v)]

/-- `d.pop(k, None)`. -/
def pyPop (d : PyDict) (k : String) : PyDict := d.filter (fun e => !(e.1 == k))

/-- `{**d1, **d2}`. -/
def pyMerge (d1 d2 : PyDict) : PyDict :=
  d1.map (fun e => (e.1, (pyGet d2 e.1).getD e.2)) ++
    d2.filter (fun e => !(pyHasKey d1 e.1))

/-- `depends_on` values: a single string or a list (`value` vs `[values]`). -/
inductive DepVal where
  | one (v : String)
  | many (vs : List String)
deriving DecidableEq, Repr

structure DependsOn where
  field : String
  value : DepVal
deriving DecidableEq, Repr

/-- A form field as read by the engine (`validation_type` models
`(validation_rules or {}).get("type")`; `children` holds the option labels
of a radio/checkbox group; every schema field carries a `semantic_label`
key, possibly empty). -/
structure Field where
  field_name : String
  field_type : String := "text"
  semantic_label : String := ""
  is_required : Bool := false
  data_type : String := "text"
  validation_type : Option String := none
  depends_on : Option DependsOn := none
  children : List String := []
deriving DecidableEq, Repr

structure FormSchema where
  form_title : String := ""
  fields : List Field
deriving DecidableEq, Repr

/-! ## `_hard_validate` (chat_engine.py:343-405) -/

def matchPhone10 (l : Str) : Bool :=
  l.length = 10 &&
    (match l with
     | c :: rest => (54 ≤ c.toNat && c.toNat ≤ 57) && rest.all Char.isDigit
     | [] => false)

def matchPan (l : Str) : Bool :=
  l.length = 10 && (l.take 5).all Char.isUpper &&
    ((l.drop 5).take 4).all Char.isDigit && (l.drop 9).all Char.isUpper

def matchAadhaar (l : Str) : Bool := l.length = 12 && l.all Char.isDigit

/-- Model of `^\d{2}[A-Z]{5}\d{4}[A-Z]\d[Z][A-Z\d]$`. -/
def matchGstin : Str → Bool
  | [d1, d2, a1, a2, a3, a4, a5, e1, e2, e3, e4, b1, e5, z, chk] =>
    d1.isDigit && d2.isDigit && a1.isUpper && a2.isUpper && a3.isUpper &&
    a4.isUpper && a5.isUpper && e1.isDigit && e2.isDigit && e3.isDigit &&
    e4.isDigit && b1.isUpper && e5.isDigit && z == 'Z' &&
    (chk.isUpper || chk.isDigit)
  | _ => false

def matchIfsc (l : Str) : Bool :=
  l.length = 11 && (l.take 4).all Char.isUpper &&
    ((l.drop 4).take 1 = ['0']) && (l.drop 5).all (fun c => c.isUpper || c.isDigit)

def matchTan (l : Str) : Bool :=
  l.length = 10 && (l.take 4).all Char.isUpper &&
    ((l.drop 4).take 5).all Char.isDigit && (l.drop 9).all Char.isUpper

/-- Model of `^[^@\s]+@[^@\s]+\.[^@\s]+$`. -/
def matchEmail (l : Str) : Bool :=
  let lcl := l.takeWhile (fun c => !(c = '@'))
  match l.drop lcl.length with
  | '@' :: dom =>
    lcl ≠ [] && lcl.all (fun c => !c.isWhitespace) &&
    dom ≠ [] && dom.all (fun c => !(c = '@' || c.isWhitespace)) &&
    ((dom.drop 1).dropLast.contains '.')
  | _ => false

def strHasSuffix (s p : Str) : Bool := strHasPref s.reverse p.reverse

def phoneErrMsg : String :=
  "That doesn" ++ apoS ++ "t look like a valid 10-digit Indian mobile number. Could you share it again?"
def panErrMsg : String :=
  "PAN should be in the format ABCDE1234F (5 letters, 4 digits, 1 letter). Please check and re-enter."
def aadhaarErrMsg : String :=
  "Aadhaar number should be exactly 12 digits. Please re-enter."
def gstinErrMsg : String :=
  "GSTIN should be 15 characters (e.g. 22ABCDE1234F1Z5). Please check and re-enter."
def ifscErrMsg : String :=
  "IFSC code should be 11 characters starting with 4 letters, then 0, then 6 alphanumeric (e.g. SBIN0001234). Please re-enter."
def tanErrMsg : String :=
  "TAN should be 10 characters (4 letters, 5 digits, 1 letter). Please re-enter."
def emailErrMsg : String :=
  "That email address doesn" ++ apoS ++ "t look right. Could you double-check it?"

/-- `_hard_validate`: Tier-1 validation. Returns `(normalised, error)`. -/
def hard_validate (key value : String) (field : Field) : Option String × Option String :=
  let nameLow := lowerStr key.toList
  let v := upperStr (pyStrip value.toList)
  let vRaw := pyStrip value.toList
  let hasW := fun (w : String) => strContains nameLow w.toList
  if hasW "phone" || hasW "mobile" || field.data_type == "phone" ||
      field.validation_type == some "phone" then
    let digits := vRaw.filter (fun c =>
      !(c.isWhitespace || c = '-' || c = '+' || c = '(' || c = ')'))
    let digits :=
      if strHasPref digits "91".toList && digits.length = 12 then digits.drop 2
      else digits
    if matchPhone10 digits then (some (String.mk digits), none)
    else (none, some phoneErrMsg)
  else if hasW "pan" && !hasW "company" then
    let pan := v.filter (fun c => !c.isWhitespace)
    if matchPan pan then (some (String.mk pan), none) else (none, some panErrMsg)
  else if hasW "aadhaar" || hasW "aadhar" then
    let digits := vRaw.filter (fun c => !(c.isWhitespace || c = '-'))
    if matchAadhaar digits then (some (String.mk digits), none)
    else (none, some aadhaarErrMsg)
  else if hasW "gstin" || (hasW "gst" && hasW "number") then
    let gstin := v.filter (fun c => !c.isWhitespace)
    if matchGstin gstin then (some (String.mk gstin), none)
    else (none, some gstinErrMsg)
  else if hasW "ifsc" then
    let ifsc := v.filter (fun c => !c.isWhitespace)
    if matchIfsc ifsc then (some (String.mk ifsc), none)
    else (none, some ifscErrMsg)
  else if String.mk nameLow == "tan" || strHasPref nameLow "tan_".toList ||
      strHasSuffix nameLow "_tan".toList then
    let tan := v.filter (fun c => !c.isWhitespace)
    if matchTan tan then (some (String.mk tan), none) else (none, some tanErrMsg)
  else if field.validation_type == some "email" || field.field_type == "email" then
    if matchEmail vRaw then (some (String.mk (lowerStr vRaw)), none)
    else (none, some emailErrMsg)
  else (some value, none)

/-! ## `_smart_parse` (chat_engine.py:412-468) -/

/-- First maximal digit run of a string (`re.findall(r"\d+", ·)[0]`). -/
def firstDigitRunFuel : Nat → Str → Option Str
  | 0, _ => none
  | fuel + 1, s =>
    match s with
    | [] => none
    | c :: rest =>
      if c.isDigit then some (s.takeWhile Char.isDigit)
      else firstDigitRunFuel fuel rest

def firstDigitRun (s : Str) : Option Str := firstDigitRunFuel (s.length + 1) s

/-- `_smart_parse`: Tier-2 parsing with a confidence flag.
The amount branch falls through to the later branches when it finds no
digits at all, exactly as the source does. -/
def smart_parse (now : PyDate) (key value : String) (field : Field) :
    Option String × Bool :=
  let nameLow := lowerStr key.toList
  let ftype := field.field_type
  let dtype := field.data_type
  let hasW := fun (w : String) => strContains nameLow w.toList
  if dtype == "date" || hasW "date" || hasW "dob" || hasW "birth" then
    match parse_date now value.toList with
    | (some d, c) => (some (String.mk d), c)
    | (none, c) => (none, c)
  else
    let amountRes : Option (Option String × Bool) :=
      if dtype == "amount" || dtype == "currency" || dtype == "number" ||
          hasW "amount" || hasW "salary" || hasW "income" || hasW "fee" ||
          hasW "price" || hasW "cost" || hasW "value" then
        match parse_amount value.toList with
        | (some p, c) => some (some (String.mk p), c)
        | (none, _) =>
          match firstDigitRun (value.toList.filter (fun c => !(c = ','))) with
          | some run => some (some (String.mk run), false)
          | none => none
      else none
    match amountRes with
    | some r => r
    | none =>
      if dtype == "name" || hasW "name" || hasW "fname" || hasW "lname" ||
          hasW "mname" || hasW "surname" then
        match parse_name value.toList with
        | (some p, c) => (some (String.mk p), c)
        | (none, c) => (none, c)
      else if hasW "pincode" || hasW "pin_code" || hasW "postal" then
        let digits := value.toList.filter (fun c => !c.isWhitespace)
        match freeDigitRunSearch (fun run => run.length = 6) digits with
        | some run => (some (String.mk run), true)
        | none => (none, false)
      else if (ftype == "radio" || ftype == "checkbox") && field.children ≠ [] then
        let valLower := lowerStr (pyStrip value.toList)
        match field.children.find? (fun c =>
            lowerStr (pyStrip c.toList) == valLower) with
        | some c => (some c, true)
        | none =>
          match field.children.enum.findSome? (fun ic =>
              let lab := lowerStr (pyStrip ic.2.toList)
              if strContains lab valLower || strContains valLower lab then some ic.2
              else if valLower == natToStr (ic.1 + 1) then some ic.2
              else none) with
          | some c => (some c, true)
          | none => (none, false)
      else
        (some (String.mk (pyStrip value.toList)), true)

/-! ## `detect_language` (chat_engine.py:81-116) -/

def SCRIPT_RANGES : List (String × Nat × Nat) :=
  [("hi", 0x0900, 0x097F), ("ta", 0x0B80, 0x0BFF), ("te", 0x0C00, 0x0C7F),
   ("bn", 0x0980, 0x09FF), ("gu", 0x0A80, 0x0AFF)]

def MARATHI_MARKERS : List String :=
  ["आहे", "आहेत", "माझे", "माझी", "मला", "तुमचे", "नाव", "सांगा", "करा"]

def HINGLISH_MARKERS : List String :=
  ["mera", "meri", "mujhe", "aapka", "aapki", "hai", "hain",
   "naam", "kya", "nahi", "nahin", "haan", "achha", "theek",
   "bata", "chahiye", "karein", "dijiye"]

def detect_language (text : Str) : Option String :=
  match SCRIPT_RANGES.findSome? (fun r =>
      if text.any (fun c => r.2.1 ≤ c.toNat && c.toNat ≤ r.2.2) then some r.1
      else none) with
  | some l =>
    if l = "hi" && MARATHI_MARKERS.any (fun m => strContains text m.toList) then
      some "mr"
    else some l
  | none =>
    let lower := lowerStr text
    if (HINGLISH_MARKERS.countP (fun w => searchWb [w.toList] lower)) ≥ 2 then
      some "hi"
    else none

/-! ## `_is_correction` and `_detect_skip_intent` (chat_engine.py:475-491, 962-976) -/

def CORRECTION_PHRASES_EN : List String :=
  ["wait", "actually", "sorry", "no,", "i meant", "i mean",
   "not", "wrong", "mistake", "correct it", "change it",
   "update", "it should be", "should be", "replace"]

def CORRECTION_PHRASES_HI : List String :=
  ["ruko", "nahi", "galat", "sahi karo", "badlo", "matlab",
   "woh nahi", "actually"]

def is_correction (userMessage : String) : Bool :=
  let lower := lowerStr userMessage.toList
  CORRECTION_PHRASES_EN.any (fun p => strContains lower p.toList) ||
  CORRECTION_PHRASES_HI.any (fun p => strContains userMessage.toList p.toList)

def SKIP_PHRASES_EN : List String :=
  ["don" ++ apoS ++ "t know", "not sure", "skip", "leave it", "no idea",
   "cant say", "can" ++ apoS ++ "t say", "later", "next"]

def SKIP_PHRASES_HI : List String :=
  ["नहीं पता", "पता नहीं", "छोड़ दो", "बाद में", "skip करो"]

def detect_skip_intent (userMessage : String) : Bool :=
  let msgLower := pyStrip (lowerStr userMessage.toList)
  SKIP_PHRASES_EN.any (fun p => strContains msgLower p.toList) ||
  SKIP_PHRASES_HI.any (fun p => strContains userMessage.toList p.toList)

/-! ## Progress helpers (chat_engine.py:532-555) -/

/-- `collected.get(name) in (None, "", "N/A", "SKIPPED")`. -/
def unfilled (o : Option Val) : Bool :=
  o = none || o = some (.s "") || o = some (.s "N/A") || o = some (.s "SKIPPED")

structure Progress where
  total_required : Nat
  completed : Nat
  remaining : Nat
  percent : Nat
deriving DecidableEq, Repr

/-- Fuel-based binary logarithm (floor of `log2`, 0 at 0 and 1). -/
def log2Fuel : Nat → Nat → Nat
  | 0, _ => 0
  | fuel + 1, n => if 2 ≤ n then log2Fuel fuel (n / 2) + 1 else 0

def natLog2 (n : Nat) : Nat := log2Fuel n n

/-- Round `a / b` to the nearest integer, ties to even (`b ≠ 0`). -/
def rneDiv (a b : Nat) : Nat :=
  let n := a / b
  let r := a % b
  if 2 * r < b then n
  else if b < 2 * r then n + 1
  else if n % 2 = 0 then n else n + 1

/-- Is `2 ^ s ≤ p / q` (with `s : Int`, `p q ≥ 1`)? -/
def le2pow (q p : Nat) (s : Int) : Bool :=
  q * 2 ^ s.toNat ≤ p * 2 ^ (-s).toNat

/-- The floor of `log2 (p / q)` for `p, q ≥ 1`. -/
def floorLog2Frac (p q : Nat) : Int :=
  let s0 : Int := (natLog2 p : Int) - (natLog2 q : Int)
  if le2pow q p s0 then s0 else s0 - 1

/-- IEEE binary64 rounding of the fraction `p / q` (`p, q ≥ 1`): round to
nearest, ties to even, gradual underflow below `2 ^ (-1022)`. The result
`(m, u)` denotes the value `m * 2 ^ u` with `u` the ulp exponent. -/
def f64DivRound (p q : Nat) : Nat × Int :=
  let t := floorLog2Frac p q
  let u : Int := max (t - 52) (-1074)
  (rneDiv (p * 2 ^ (-u).toNat) (q * 2 ^ u.toNat), u)

/-- IEEE binary64 rounding of the value `n * 2 ^ e` (`n ≥ 1`). -/
def f64Round (n : Nat) (e : Int) : Nat × Int :=
  let t : Int := (natLog2 n : Int) + e
  let u : Int := max (t - 52) (-1074)
  if u ≤ e then (n * 2 ^ (e - u).toNat, u)
  else (rneDiv n (2 ^ (u - e).toNat), u)

/-- Python float division `done / total` of two nonnegative machine ints
(`total ≠ 0`). -/
def pyFloatDivNat (p q : Nat) : Nat × Int :=
  if p = 0 then (0, 0) else f64DivRound p q

/-- Python float multiplication `x * 100`. -/
def pyFloatMul100 (x : Nat × Int) : Nat × Int :=
  if x.1 = 0 then (0, 0) else f64Round (x.1 * 100) x.2

/-- Python `int(x)` on a nonnegative float value `m * 2 ^ u`. -/
def pyFloatFloorNat (x : Nat × Int) : Nat :=
  if 0 ≤ x.2 then x.1 * 2 ^ x.2.toNat else x.1 / 2 ^ (-x.2).toNat

/-- `_compute_progress`; `int(done / total * 100)` is modelled exactly as
the truncation of the IEEE binary64 evaluation: the quotient is rounded to
binary64, the product with 100 is rounded to binary64, and `int` truncates
the result. -/
def compute_progress (formSchema : FormSchema) (collected : PyDict) : Progress :=
  let requiredFields := formSchema.fields.filter (·.is_required)
  let total := requiredFields.length
  let done := requiredFields.countP (fun f => !unfilled (pyGet collected f.field_name))
  { total_required := total, completed := done, remaining := total - done,
    percent := if total = 0 then 100
      else pyFloatFloorNat (pyFloatMul100 (pyFloatDivNat done total)) }

/-- `_get_next_unfilled_field`: first required field with an unfilled value. -/
def get_next_unfilled_field (formSchema : FormSchema) (collected : PyDict) :
    Option String :=
  formSchema.fields.findSome? (fun f =>
    if f.is_required && unfilled (pyGet collected f.field_name) then
      some f.field_name
    else none)

/-! ## `_should_skip_field` (chat_engine.py:562-576) -/

def should_skip_field (f : Field) (collected : PyDict) : Bool :=
  match f.depends_on with
  | none => false
  | some dep =>
    let parentVal :=
      match pyGet collected dep.field with
      | some v => pyStrOfVal v
      | none => ""
    match dep.value with
    | .one v => !(lowerStr parentVal.toList == lowerStr v.toList)
    | .many vs =>
      !((vs.map (fun v => lowerStr v.toList)).contains (lowerStr parentVal.toList))

/-! ## `_build_confirmation_summary` (chat_engine.py:583-604) -/

/-- Python `str.title()`. -/
def pyTitleGo : Bool → Str → Str
  | _, [] => []
  | prevAlpha, c :: rest =>
    (if c.isAlpha then (if prevAlpha then Char.toLower c else Char.toUpper c)
     else c) :: pyTitleGo c.isAlpha rest

def pyTitle (l : Str) : Str := pyTitleGo false l

def summaryLabel (f : Field) : String :=
  if f.semantic_label ≠ "" then f.semantic_label
  else String.mk (pyTitle (f.field_name.toList.map (fun c => if c = '_' then ' ' else c)))

def summaryHeaderHi : String := "आपने जो जानकारी दी है, वो यहाँ है:\n\n"
def summaryFooterHi : String :=
  "\n\nक्या यह सब सही है? " ++ apoS ++ "हाँ" ++ apoS ++ " कहें तो मैं फ़ॉर्म पूरा कर दूँगा।"
def summaryHeaderEn : String :=
  "Here" ++ apoS ++ "s a summary of everything you" ++ apoS ++ "ve shared:\n\n"
def summaryFooterEn : String :=
  "\n\nDoes everything look correct? Say " ++ apoS ++ "yes" ++ apoS ++ " to finalise the form."

def joinNl : List String → String
  | [] => ""
  | [x] => x
  | x :: xs => x ++ "\n" ++ joinNl xs

def build_confirmation_summary (formSchema : FormSchema) (collected : PyDict)
    (lang : String) : String :=
  let lines := formSchema.fields.filterMap (fun f =>
    let val := pyGet collected f.field_name
    if unfilled val then none
    else some ("• " ++ summaryLabel f ++ ": " ++ pyStrOfVal (val.getD (.s ""))))
  let header := if lang = "hi" then summaryHeaderHi else summaryHeaderEn
  let footer := if lang = "hi" then summaryFooterHi else summaryFooterEn
  header ++ joinNl lines ++ footer

/-! ## `_fallback_reply` and `_clean_extracted` (chat_engine.py:847-871) -/

def fallback_reply (lang : String) : String :=
  if lang = "hi" then "माफ़ करें, कुछ गड़बड़ हो गई। क्या आप फिर से बता सकते हैं?"
  else "Sorry, something went wrong on my end. Could you say that again?"

def YES_TOKENS : List String := ["yes", "true", "1", "haan", "ha", "✓"]
def NO_TOKENS : List String := ["no", "false", "0", "nahi", "na", "☐"]

def clean_extracted (extracted : PyDict) (formSchema : FormSchema) : PyDict :=
  let validNames := formSchema.fields.map (·.field_name)
  extracted.foldl (fun cleaned kv =>
    let (k, v) := kv
    if v = .s "" || v = .s "N/A" || v = .s "null" || v = .s "undefined" then cleaned
    else if !(validNames.contains k) && !(strHasPref k.toList "_".toList) then cleaned
    else
      let v :=
        match v with
        | .s sv =>
          if YES_TOKENS.contains (String.mk (lowerStr sv.toList)) then
            match formSchema.fields.find? (fun f => f.field_name == k) with
            | some f =>
              if f.field_type == "checkbox" && f.children = [] then Val.b true else v
            | none => v
          else if NO_TOKENS.contains (String.mk (lowerStr sv.toList)) then
            match formSchema.fields.find? (fun f => f.field_name == k) with
            | some f =>
              if f.field_type == "checkbox" && f.children = [] then Val.b false else v
            | none => v
          else v
        | _ => v
      pySet cleaned k v) []

/-! ## `_find_fields` and `_smart_name_split` (chat_engine.py:874-959) -/

/-- `{f["field_name"]: f for f in fields}`: first-occurrence order, last
value wins. -/
def fieldNamesDict (fields : List Field) : List (String × Field) :=
  fields.foldl (fun acc f =>
    if acc.any (fun e => e.1 == f.field_name) then
      acc.map (fun e => if e.1 == f.field_name then (e.1, f) else e)
    else acc ++ [(f.field_name, f)]) []

def find_fields (fieldNames : List (String × Field)) (keywords : List String)
    (dataType : Option String) : List String :=
  fieldNames.filterMap (fun nf =>
    let (name, field) := nf
    if keywords.any (fun kw => strContains (lowerStr name.toList) kw.toList) then
      some name
    else
      match dataType with
      | some dt =>
        if field.data_type == dt &&
            keywords.any (fun kw =>
              strContains (lowerStr ((field.semantic_label ++ name).toList)) kw.toList) then
          some name
        else none
      | none => none)

def TITLE_PREFIXES : List String := ["dr.", "mr.", "mrs.", "ms.", "prof.", "er.", "adv."]

/-- `collected.get(key) in (None, "", "N/A")`. -/
def emptyish (o : Option Val) : Bool :=
  o = none || o = some (.s "") || o = some (.s "N/A")

/-- Source selection of `_smart_name_split`: the first name-ish extracted
string value with at least one token, stripped. -/
def sns_src (extracted : PyDict) (fieldNames : List (String × Field)) :
    Option (String × String) :=
  extracted.findSome? (fun kv =>
    let (k, v) := kv
    let isNameField :=
      (match fieldNames.find? (fun e => e.1 == k) with
       | some e => e.2.data_type == "name"
       | none => false) || strContains (lowerStr k.toList) "name".toList
    if isNameField then
      match v with
      | .s sv =>
        if (splitWs sv.toList).length ≥ 1 then some (k, String.mk (pyStrip sv.toList))
        else none
      | _ => none
    else none)

/-- Title-prefix removal of `_smart_name_split`: detected title (with the
trailing dot rstripped) and the cleaned remainder. -/
def sns_title (nameValue : String) : Option String × String :=
  match TITLE_PREFIXES.findSome? (fun p =>
      if strHasPref (lowerStr nameValue.toList) p.toList then some p else none) with
  | some p =>
    (some (String.mk (pyRstrip (nameValue.toList.take p.length) ['.'])),
     String.mk (pyStrip (nameValue.toList.drop p.length)))
  | none => (none, nameValue)

/-- The token-placement if-chain of `_smart_name_split`. -/
def sns_write_parts (extracted : PyDict) (firstKey lastKey : String)
    (middleKey : Option String) (parts : List Str) : PyDict :=
  if parts.length = 2 then
    pySet (pySet extracted firstKey (.s (String.mk (parts.getD 0 []))))
      lastKey (.s (String.mk (parts.getD 1 [])))
  else if parts.length = 3 && middleKey.isSome then
    pySet (pySet (pySet extracted firstKey (.s (String.mk (parts.getD 0 []))))
        (middleKey.getD "") (.s (String.mk (parts.getD 1 []))))
      lastKey (.s (String.mk (parts.getD 2 [])))
  else if parts.length ≥ 3 && middleKey.isNone then
    pySet (pySet extracted firstKey (.s (String.mk (parts.getD 0 []))))
      lastKey (.s (String.mk (joinSp (parts.drop 1))))
  else if parts.length = 1 then
    pySet extracted firstKey (.s (String.mk (parts.getD 0 [])))
  else extracted

/-- The title write of `_smart_name_split`. -/
def sns_write_title (extracted : PyDict) (fieldNames : List (String × Field))
    (collected : PyDict) (forceUpdate : Bool) (title : Option String) : PyDict :=
  match title with
  | some t =>
    match (find_fields fieldNames ["title", "salutation", "prefix"] none).head? with
    | some tk =>
      if emptyish (pyGet collected tk) || forceUpdate then
        pySet extracted tk (.s t)
      else extracted
    | none => extracted
  | none => extracted

/-- Assignment phase of `_smart_name_split`: write the split tokens into
first/middle/last and the full-name fields. -/
def sns_assign (extracted : PyDict) (fieldNames : List (String × Field))
    (collected : PyDict) (forceUpdate : Bool)
    (nameSourceKey nameValue : String) (tc : Option String × String) : PyDict :=
  let firstNameKeys := find_fields fieldNames ["first_name", "fname", "given_name"] (some "name")
  let middleNameKeys := find_fields fieldNames ["middle_name", "mname", "middle"] (some "name")
  let lastNameKeys := find_fields fieldNames ["last_name", "lname", "surname", "family_name"] (some "name")
  let fullNameKeys := find_fields fieldNames ["full_name", "name", "applicant_name", "candidate_name"] (some "name")
  let title := tc.1
  let nameClean := tc.2
  let parts := splitWs nameClean.toList
  let extracted :=
      if firstNameKeys ≠ [] && lastNameKeys ≠ [] then
        let extracted :=
          if emptyish (pyGet collected (firstNameKeys.headD "")) || forceUpdate then
            sns_write_parts extracted (firstNameKeys.headD "")
              (lastNameKeys.headD "") middleNameKeys.head? parts
          else extracted
        sns_write_title extracted fieldNames collected forceUpdate title
      else extracted
  match fullNameKeys.head? with
  | some fk =>
    if (emptyish (pyGet collected fk) || forceUpdate) && fk ≠ nameSourceKey then
      pySet extracted fk (.s nameValue)
    else extracted
  | none => extracted

/-- `_smart_name_split`: auto-split full names into first/middle/last. -/
def smart_name_split (extracted : PyDict) (formSchema : FormSchema)
    (collected : PyDict) (forceUpdate : Bool) : PyDict :=
  let fieldNames := fieldNamesDict formSchema.fields
  match sns_src extracted fieldNames with
  | none => extracted
  | some (nameSourceKey, nameValue) =>
    sns_assign extracted fieldNames collected forceUpdate
      nameSourceKey nameValue (sns_title nameValue)

/-! ## `_extract_phone_from_message` (chat_engine.py:979-994) -/

/-- Match `\+91([6-9]\d{9})` at the head of `s`. -/
def phonePlus91Here (s : Str) : Option Str :=
  match s with
  | '+' :: '9' :: '1' :: rest =>
    let run := rest.take 10
    if run.length = 10 &&
        (match run with
         | c :: t => (54 ≤ c.toNat && c.toNat ≤ 57) && t.all Char.isDigit
         | [] => false) then some run
    else none
  | _ => none

/-- Match `91([6-9]\d{9})` at the head with a trailing word boundary. -/
def phone91Here (s : Str) : Option Str :=
  match s with
  | '9' :: '1' :: rest =>
    let run := rest.take 10
    if run.length = 10 &&
        (match run with
         | c :: t => (54 ≤ c.toNat && c.toNat ≤ 57) && t.all Char.isDigit
         | [] => false) &&
        (match (rest.drop 10).head? with
         | none => true
         | some c => !isWordChar c) then some run
    else none
  | _ => none

/-- Match `([6-9]\d{9})` at the head with a trailing word boundary. -/
def phoneBareHere (s : Str) : Option Str :=
  let run := s.take 10
  if run.length = 10 &&
      (match run with
       | c :: t => (54 ≤ c.toNat && c.toNat ≤ 57) && t.all Char.isDigit
       | [] => false) &&
      (match (s.drop 10).head? with
       | none => true
       | some c => !isWordChar c) then some run
  else none

/-- Generic leftmost scan; `needsBoundary` guards patterns starting with `\b`. -/
def phoneScanFuel (here : Str → Option Str) (needsBoundary : Bool) :
    Nat → Bool → Str → Option Str
  | 0, _, _ => none
  | fuel + 1, prevIsWord, s =>
    match (if needsBoundary && prevIsWord then none else here s) with
    | some r => some r
    | none =>
      match s with
      | [] => none
      | c :: rest => phoneScanFuel here needsBoundary fuel (isWordChar c) rest

def phoneScan (here : Str → Option Str) (needsBoundary : Bool) (s : Str) : Option Str :=
  phoneScanFuel here needsBoundary (s.length + 1) false s

def PHONE_SKIP_WORDS : List String :=
  ["skip", "no", "nahi", "nahin", "nope", "later", "dont", "don" ++ apoS ++ "t"]

def extract_phone_from_message (text : String) : Option String :=
  let t := text.toList.filter (fun c => !(c = ' ' || c = '-'))
  match phoneScan phonePlus91Here false t with
  | some r => some (String.mk r)
  | none =>
    match phoneScan phone91Here true t with
    | some r => some (String.mk r)
    | none =>
      match phoneScan phoneBareHere true t with
      | some r => some (String.mk r)
      | none =>
        if PHONE_SKIP_WORDS.any (fun w =>
            strContains (lowerStr text.toList) w.toList) then some "__SKIP__"
        else none

/-! ## `run_chat_turn` (chat_engine.py:611-840)

The external model call is the sole collaborator: its structured tool-call
payload (or free-text fallback) is an input of the turn function, as is the
`whatsapp_is_configured()` capability flag and `datetime.now()`. -/

structure Session where
  collected : PyDict := []
  chat_history : List (String × String) := []
  lang : Option String := none
  awaiting_summary_confirm : Bool := false
  whatsapp_phone : Option String := none
deriving DecidableEq, Repr

structure ModelArgs where
  reply : String := ""
  extracted : PyDict := []
  confirmations_needed : List String := []
  is_complete : Bool := false
  detected_lang : Option String := none
deriving DecidableEq, Repr

/-- The external model's response: a parsed `update_form_fields` tool call,
or free-text content (also covering absent/malformed tool calls). -/
inductive ModelResp where
  | tool (args : ModelArgs)
  | text (content : Option String)
deriving DecidableEq, Repr

structure TurnResult where
  reply : String
  extracted : PyDict
  confirmations : List String
  low_confidence : List String
  is_complete : Bool
  updated_history : List (String × String)
  detected_lang : Option String
  last_asked_field : Option String
  progress : Progress
deriving DecidableEq, Repr

def CONFIRM_WORDS_EN : List String :=
  ["yes", "correct", "ok", "okay", "right", "sure", "confirm", "submit",
   "done", "haan", "ha", "sahi"]

def doneMsgHi : String := "बहुत बढ़िया! 🎉 आपका फ़ॉर्म सफलतापूर्वक भर गया है।"
def doneMsgEn : String := "All done! 🎉 Your form has been successfully completed."

def skipBlockReplyHi (label : String) : String :=
  "माफ़ करें, " ++ apoS ++ label ++ apoS ++
    " एक ज़रूरी जानकारी है — इसे छोड़ा नहीं जा सकता। क्या आप यह बाद में बता सकते हैं?"

def skipBlockReplyEn (label : String) : String :=
  apoS ++ label ++ apoS ++ " is a required field and can" ++ apoS ++
    "t be skipped. Could you provide it, even if approximate?"

/-- The conditional-suppression loop (chat_engine.py:796-799): the merge is
recomputed against the extraction as already pruned by earlier iterations. -/
def suppressFields (fields : List Field) (collected extracted : PyDict) : PyDict :=
  fields.foldl (fun e f =>
    if should_skip_field f (pyMerge collected e) then pyPop e f.field_name else e)
    extracted

/-- The raw extraction of the model response (empty on the free-text
fallback path). -/
def modelExtracted : ModelResp → PyDict
  | .tool args => args.extracted
  | .text _ => []

/-- Auto language switch from `detect_language` (chat_engine.py:636-639). -/
def autoSwitchLang (userMessage : String) (lang : String) : String :=
  match detect_language userMessage.toList with
  | some al => if al ≠ lang then al else lang
  | none => lang

/-- The model-reported language override (chat_engine.py:727-730). -/
def modelLangMerge (resp : ModelResp) (lang : String) : String :=
  match resp with
  | .tool args =>
    (match args.detected_lang with
     | some ml => if ml ≠ "" && ml ≠ lang then ml else lang
     | none => lang)
  | .text _ => lang

/-- `field_map.get(target_field, {})['semantic_label']` for the refusal
message. -/
def labelOf (formSchema : FormSchema) (targetField : String) : String :=
  match (fieldNamesDict formSchema.fields).find? (fun e => e.1 == targetField) with
  | some e => e.2.semantic_label
  | none => targetField

/-- The Tier-1 / Tier-2 validation loop over the extracted pairs
(chat_engine.py:745-775). Returns `(validated_extracted, low_confidence)`. -/
def validateExtracted (now : PyDate) (fieldMap : List (String × Field))
    (extracted : PyDict) : PyDict × List String :=
  extracted.foldl (fun acc kv =>
    let (ve, lc) := acc
    let (k, value) := kv
    match value with
    | .b bv => (pySet ve k (.b bv), lc)
    | .s sv =>
      let field :=
        match fieldMap.find? (fun e => e.1 == k) with
        | some e => e.2
        | none => { field_name := k }
      match hard_validate k sv field with
      | (_, some _) => (ve, lc)
      | (normVal, none) =>
        if normVal ≠ some sv then (pySet ve k (.s (normVal.getD sv)), lc)
        else
          match smart_parse now k sv field with
          | (none, _) => (ve, lc)
          | (some p, confident) =>
            (pySet ve k (.s p), if confident then lc else lc ++ [k]))
    ([], [])

/-- Does the awaiting-confirmation short-circuit fire? Any confirm word as a
plain substring of the lowered message. -/
def hasConfirmWord (userMessage : String) : Bool :=
  CONFIRM_WORDS_EN.any (fun w =>
    strContains (lowerStr userMessage.toList) w.toList)

/-- Extraction effect of the skip-protection block (chat_engine.py:777-791):
an optional next unfilled field is marked `"N/A"`. -/
def skipProtectExtracted (userMessage : String) (collected : PyDict)
    (fieldMap : List (String × Field)) (formSchema : FormSchema)
    (extracted : PyDict) : PyDict :=
  if detect_skip_intent userMessage && extracted = [] then
    match get_next_unfilled_field formSchema collected with
    | some targetField =>
      let fieldObj :=
        match fieldMap.find? (fun e => e.1 == targetField) with
        | some e => e.2
        | none => { field_name := targetField }
      if !fieldObj.is_required then pySet extracted targetField (.s "N/A")
      else extracted
    | none => extracted
  else extracted

/-- Reply effect of the skip-protection block: a required next unfilled field
makes the reply a localized refusal. -/
def skipProtectReply (userMessage : String) (collected : PyDict)
    (fieldMap : List (String × Field)) (formSchema : FormSchema)
    (lang : String) (extracted : PyDict) (reply : String) : String :=
  if detect_skip_intent userMessage && extracted = [] then
    match get_next_unfilled_field formSchema collected with
    | some targetField =>
      let fieldObj :=
        match fieldMap.find? (fun e => e.1 == targetField) with
        | some e => e.2
        | none => { field_name := targetField }
      if !fieldObj.is_required then reply
      else
        let label := labelOf formSchema targetField
        if lang = "hi" then skipBlockReplyHi label else skipBlockReplyEn label
    | none => reply
  else reply

/-- The candidate extraction of a turn as it enters the conditional
suppression step: model extraction cleaned, name-split, validated and
skip-marked against the session's collected state. -/
def candidateExtraction (userMessage : String) (session : Session)
    (formSchema : FormSchema) (now : PyDate) (resp : ModelResp) : PyDict :=
  skipProtectExtracted userMessage session.collected
    (fieldNamesDict formSchema.fields) formSchema
    (validateExtracted now (fieldNamesDict formSchema.fields)
      (smart_name_split (clean_extracted (modelExtracted resp) formSchema)
        formSchema session.collected (is_correction userMessage))).1

/-- The WhatsApp phone-capture step (chat_engine.py:818-826). -/
def whatsappCapture (userMessage : String) (isComplete waConfigured : Bool)
    (session : Session) (extracted : PyDict) : PyDict × Session :=
  if isComplete && waConfigured &&
      (session.whatsapp_phone = none || session.whatsapp_phone = some "") then
    match extract_phone_from_message userMessage with
    | some p =>
      if p = "__SKIP__" then
        (extracted, { session with whatsapp_phone := some "__SKIP__" })
      else
        (pySet extracted "_whatsapp_phone" (.s p),
         { session with whatsapp_phone := some p })
    | none => (extracted, session)
  else (extracted, session)

/-- `run_chat_turn`: process one user message; returns the `TurnResult` and
the mutated session. -/
def run_chat_turn (userMessage : String) (session : Session)
    (formSchema : FormSchema) (lang : String) (now : PyDate)
    (modelResp : ModelResp) (whatsappConfigured : Bool) :
    TurnResult × Session :=
  let collected := session.collected
  let history := session.chat_history
  let awaitingSummaryConfirm := session.awaiting_summary_confirm
  -- auto language detection
  let autoLang := detect_language userMessage.toList
  let lang := match autoLang with
              | some al => if al ≠ lang then al else lang
              | none => lang
  let detectedLang : Option String := none
  -- drop-off tracking on the state entering this turn
  let lastAskedField := get_next_unfilled_field formSchema collected
  -- confirmation of the final summary
  if awaitingSummaryConfirm && hasConfirmWord userMessage then
    let reply := if lang = "hi" then doneMsgHi else doneMsgEn
    let history := history ++ [("user", userMessage), ("assistant", reply)]
    ({ reply := reply, extracted := [], confirmations := [], low_confidence := [],
       is_complete := true, updated_history := history,
       detected_lang := detectedLang, last_asked_field := none,
       progress := compute_progress formSchema collected },
     { session with chat_history := history })
  else
    -- non-affirmative while awaiting: treat as a regular correction turn
    let session :=
      if awaitingSummaryConfirm then { session with awaiting_summary_confirm := false }
      else session
    let isCorrectionTurn := is_correction userMessage
    let history := history ++ [("user", userMessage)]
    -- external model call
    let reply :=
      match modelResp with
      | .tool args => args.reply
      | .text content =>
        match content with
        | some c => if c ≠ "" then c else fallback_reply lang
        | none => fallback_reply lang
    let confirmations :=
      match modelResp with
      | .tool args => args.confirmations_needed
      | .text _ => []
    let isComplete :=
      match modelResp with
      | .tool args => args.is_complete
      | .text _ => false
    let detectedLang :=
      match modelResp with
      | .tool args =>
        (match args.detected_lang with
         | some ml => if ml ≠ "" && ml ≠ lang then some ml else detectedLang
         | none => detectedLang)
      | .text _ => detectedLang
    let lang := modelLangMerge modelResp lang
    let detectedLang :=
      match autoLang with
      | some al =>
        if al ≠ session.lang.getD "en" && detectedLang = none then some al
        else detectedLang
      | none => detectedLang
    -- post-processing pipeline
    let fieldMap := fieldNamesDict formSchema.fields
    let split :=
      smart_name_split (clean_extracted (modelExtracted modelResp) formSchema)
        formSchema collected isCorrectionTurn
    let validated := (validateExtracted now fieldMap split).1
    let lowConfidence := (validateExtracted now fieldMap split).2
    -- skip protection: never mark a required field as SKIPPED
    let reply := skipProtectReply userMessage collected fieldMap formSchema lang
      validated reply
    let extracted := skipProtectExtracted userMessage collected fieldMap formSchema
      validated
    -- conditional field skipping
    let extracted := suppressFields formSchema.fields collected extracted
    -- completion gate
    let merged := pyMerge collected extracted
    let allRequiredDone := formSchema.fields.all (fun f =>
      if f.is_required && !should_skip_field f merged then
        !unfilled (pyGet merged f.field_name)
      else true)
    let gate :=
      if isComplete && allRequiredDone && !session.awaiting_summary_confirm then
        (build_confirmation_summary formSchema merged lang, false,
         { session with awaiting_summary_confirm := true })
      else (reply, isComplete, session)
    let reply := gate.1
    let isComplete := gate.2.1
    let session := gate.2.2
    -- WhatsApp phone capture
    let wa := whatsappCapture userMessage isComplete whatsappConfigured session extracted
    let extracted := wa.1
    let session := wa.2
    let history := history ++ [("assistant", reply)]
    let session := { session with chat_history := history }
    ({ reply := reply, extracted := extracted, confirmations := confirmations,
       low_confidence := lowConfidence, is_complete := isComplete,
       updated_history := history, detected_lang := detectedLang,
       last_asked_field := lastAskedField,
       progress := compute_progress formSchema (pyMerge collected extracted) },
     session)

/-! ## Basic lemmas about the string model -/

theorem strHasPref_iff {s p : Str} : strHasPref s p = true ↔ ∃ r, s = p ++ r := by
  induction p generalizing s with
  | nil => simp [strHasPref]
  | cons d p ih =>
    cases s with
    | nil => simp [strHasPref]
    | cons c s =>
      simp only [strHasPref, Bool.and_eq_true, beq_iff_eq, ih]
      constructor
      · rintro ⟨rfl, r, rfl⟩; exact ⟨r, rfl⟩
      · rintro ⟨r, h⟩
        rw [List.cons_append] at h
        cases h
        exact ⟨rfl, r, rfl⟩

theorem strContains_iff {s sub : Str} :
    strContains s sub = true ↔ ∃ pre post, s = pre ++ sub ++ post := by
  induction s with
  | nil =>
    simp only [strContains, strHasPref_iff]
    constructor
    · rintro ⟨r, h⟩
      exact ⟨[], r, h⟩
    · rintro ⟨pre, post, h⟩
      cases pre with
      | nil => exact ⟨post, h⟩
      | cons a l => simp at h
  | cons c s ih =>
    simp only [strContains, Bool.or_eq_true, strHasPref_iff, ih]
    constructor
    · rintro (⟨r, h⟩ | ⟨pre, post, h⟩)
      · exact ⟨[], r, h⟩
      · exact ⟨c :: pre, post, by simp [h]⟩
    · rintro ⟨pre, post, h⟩
      cases pre with
      | nil => exact .inl ⟨post, h⟩
      | cons a pre =>
        rw [List.cons_append, List.cons_append] at h
        cases h
        exact .inr ⟨pre, post, by simp⟩

/-- A substring-free property is inherited by any part of a decomposition. -/
theorem strContains_false_of_part {s t sub pre post : Str}
    (hdec : s = pre ++ t ++ post) (h : strContains s sub = false) :
    strContains t sub = false := by
  by_contra hne
  have ht : strContains t sub = true := by
    cases hc : strContains t sub
    · exact absurd hc hne
    · rfl
  obtain ⟨a, b, rfl⟩ := strContains_iff.mp ht
  have : strContains s sub = true := by
    refine strContains_iff.mpr ⟨pre ++ a, b ++ post, ?_⟩
    simp [hdec]
  rw [this] at h; cases h

theorem strContains_self {s : Str} : strContains s s = true :=
  strContains_iff.mpr ⟨[], [], by simp⟩

theorem strContains_false_of_pre_post (pre post : Str) {s t sub : Str}
    (hdec : s = pre ++ t ++ post) (h : strContains s sub = false) :
    strContains t sub = false := strContains_false_of_part hdec h

theorem pyStrip_decomp (l : Str) : ∃ pre post, l = pre ++ pyStrip l ++ post := by
  have h1 : l.takeWhile Char.isWhitespace ++ l.dropWhile Char.isWhitespace = l :=
    List.takeWhile_append_dropWhile _ _
  set d := l.dropWhile Char.isWhitespace with hd
  have h2 : d.reverse.takeWhile Char.isWhitespace ++ d.reverse.dropWhile Char.isWhitespace
      = d.reverse := List.takeWhile_append_dropWhile _ _
  have h3 : (d.reverse.dropWhile Char.isWhitespace).reverse ++
      (d.reverse.takeWhile Char.isWhitespace).reverse = d := by
    have h4 := congrArg List.reverse h2
    rw [List.reverse_append, List.reverse_reverse] at h4
    exact h4
  refine ⟨l.takeWhile Char.isWhitespace,
    (d.reverse.takeWhile Char.isWhitespace).reverse, ?_⟩
  have hps : pyStrip l = (d.reverse.dropWhile Char.isWhitespace).reverse := rfl
  rw [hps, List.append_assoc, h3, h1]

theorem pyStrip_length_le (l : Str) : (pyStrip l).length ≤ l.length := by
  obtain ⟨pre, post, h⟩ := pyStrip_decomp l
  have h2 := congrArg List.length h
  simp only [List.length_append] at h2
  omega

theorem splitWs_token_decomp {l : Str} {t : Str} (h : t ∈ splitWs l) :
    ∃ pre post, l = pre ++ t ++ post := by
  have main : ∀ fuel l, t ∈ splitWsFuel fuel l → ∃ pre post, l = pre ++ t ++ post := by
    intro fuel
    induction fuel with
    | zero => intro l h; simp [splitWsFuel] at h
    | succ fuel ih =>
      intro l h
      rw [splitWsFuel] at h
      by_cases hnil : l.dropWhile Char.isWhitespace = []
      · simp [hnil] at h
      · simp only [hnil, if_false, List.mem_cons] at h
        have hl : l.takeWhile Char.isWhitespace ++ l.dropWhile Char.isWhitespace = l :=
          List.takeWhile_append_dropWhile _ _
        have hl2 : (l.dropWhile Char.isWhitespace).takeWhile (fun c => !c.isWhitespace) ++
            (l.dropWhile Char.isWhitespace).dropWhile (fun c => !c.isWhitespace)
            = l.dropWhile Char.isWhitespace := List.takeWhile_append_dropWhile _ _
        rcases h with rfl | hmem
        · exact ⟨l.takeWhile Char.isWhitespace,
            (l.dropWhile Char.isWhitespace).dropWhile (fun c => !c.isWhitespace),
            by rw [List.append_assoc, hl2, hl]⟩
        · obtain ⟨pre, post, hdec⟩ := ih _ hmem
          refine ⟨l.takeWhile Char.isWhitespace ++
            (l.dropWhile Char.isWhitespace).takeWhile (fun c => !c.isWhitespace) ++ pre,
            post, ?_⟩
          rw [hdec] at hl2
          rw [← hl]
          conv_lhs => rw [← hl2]
          simp [List.append_assoc]
  exact main _ _ h

/-- If `sub ++ post = a ++ c :: b` and `c ∉ sub` then `sub` is a prefix
of `a`. -/
theorem pref_of_append_eq {sub post a b : Str} {c : Char} (hc : c ∉ sub)
    (h : sub ++ post = a ++ c :: b) : ∃ r, a = sub ++ r := by
  induction sub generalizing a with
  | nil => exact ⟨a, rfl⟩
  | cons s0 sub ih =>
    cases a with
    | nil =>
      simp only [List.nil_append, List.cons_append, List.cons.injEq] at h
      exact absurd (h.1 ▸ List.mem_cons_self _ _) hc
    | cons a0 a =>
      simp only [List.cons_append, List.cons.injEq] at h
      obtain ⟨rfl, h⟩ := h
      obtain ⟨r, hr⟩ := ih (fun hm => hc (List.mem_cons_of_mem _ hm)) h
      exact ⟨r, by simp [hr]⟩

theorem occurrence_split_aux {b sub post : Str} {c : Char} (hc : c ∉ sub)
    (pre : Str) :
    ∀ a : Str, a ++ c :: b = pre ++ sub ++ post →
      (∃ p q, a = p ++ sub ++ q) ∨ ∃ p q, b = p ++ sub ++ q := by
  induction pre with
  | nil =>
    intro a h
    simp only [List.nil_append] at h
    cases a with
    | nil =>
      cases sub with
      | nil => exact .inl ⟨[], [], rfl⟩
      | cons s0 sub =>
        simp only [List.nil_append, List.cons_append, List.cons.injEq] at h
        exact absurd (h.1 ▸ List.mem_cons_self _ _) hc
    | cons a0 a =>
      obtain ⟨r, hr⟩ := pref_of_append_eq hc h.symm
      exact .inl ⟨[], r, by simp [hr]⟩
  | cons p0 pre ih =>
    intro a h
    cases a with
    | nil =>
      simp only [List.nil_append, List.cons_append, List.cons.injEq] at h
      exact .inr ⟨pre, post, h.2⟩
    | cons a0 a =>
      simp only [List.cons_append, List.cons.injEq] at h
      rcases ih a h.2 with hl | hr
      · obtain ⟨p, q, hp⟩ := hl
        exact .inl ⟨a0 :: p, q, by simp [hp]⟩
      · exact .inr hr

/-- An occurrence of `sub` in `a ++ c :: b` with `c ∉ sub` lies wholly in
`a` or wholly in `b`. -/
theorem occurrence_split {a b sub : Str} {c : Char} (hc : c ∉ sub)
    (h : ∃ pre post, a ++ c :: b = pre ++ sub ++ post) :
    (∃ p q, a = p ++ sub ++ q) ∨ ∃ p q, b = p ++ sub ++ q := by
  obtain ⟨pre, post, h⟩ := h
  exact occurrence_split_aux hc pre a h

/-- An occurrence of a space-free `sub` in a `" "`-join lies in one of the
joined pieces. -/
theorem joinSp_occurrence {ts : List Str} {sub : Str} (hsp : ' ' ∉ sub)
    (hne : sub ≠ [])
    (h : ∃ pre post, joinSp ts = pre ++ sub ++ post) :
    ∃ t ∈ ts, ∃ pre post, t = pre ++ sub ++ post := by
  induction ts with
  | nil =>
    obtain ⟨pre, post, h⟩ := h
    rw [joinSp] at h
    rcases pre with _ | ⟨x, pre⟩
    · rcases sub with _ | ⟨y, sub⟩
      · exact absurd rfl hne
      · simp at h
    · simp at h
  | cons t ts ih =>
    cases ts with
    | nil =>
      exact ⟨t, by simp, h⟩
    | cons t' ts' =>
      have hj : joinSp (t :: t' :: ts') = t ++ ' ' :: joinSp (t' :: ts') := rfl
      rw [hj] at h
      rcases occurrence_split hsp h with hl | hr
      · exact ⟨t, by simp, hl⟩
      · obtain ⟨u, hu, hdec⟩ := ih hr
        exact ⟨u, List.mem_cons_of_mem _ hu, hdec⟩

/-! ## Basic lemmas about the dict model -/

theorem pyGet_mem {d : PyDict} {k : String} {v : Val} (h : pyGet d k = some v) :
    (k, v) ∈ d := by
  unfold pyGet at h
  cases hf : d.find? (fun e => e.1 == k) with
  | none => rw [hf] at h; cases h
  | some e =>
    rw [hf] at h
    have hk : (e.1 == k) = true := by simpa using List.find?_some hf
    have hm := List.mem_of_find?_eq_some hf
    cases h
    have he : e = (k, e.2) := by
      cases e; simp only [beq_iff_eq] at hk; simp [hk]
    rw [← he]
    exact hm

theorem mem_pySet {d : PyDict} {k : String} {v : Val} {kv : String × Val}
    (h : kv ∈ pySet d k v) : kv = (k, v) ∨ kv ∈ d := by
  unfold pySet at h
  by_cases hk : pyHasKey d k
  · rw [if_pos hk] at h
    obtain ⟨e, he, heq⟩ := List.mem_map.mp h
    by_cases h1 : (e.1 == k) = true
    · rw [if_pos h1] at heq; exact .inl heq.symm
    · rw [if_neg h1] at heq; exact .inr (heq ▸ he)
  · rw [if_neg hk] at h
    rcases List.mem_append.mp h with h1 | h1
    · exact .inr h1
    · simp at h1; exact .inl h1

theorem mem_pyPop {d : PyDict} {k : String} {kv : String × Val}
    (h : kv ∈ pyPop d k) : kv ∈ d :=
  (List.mem_filter.mp h).1

theorem pyGet_pyPop_none {d : PyDict} {k k' : String} (h : pyGet d k = none) :
    pyGet (pyPop d k') k = none := by
  unfold pyGet at h ⊢
  cases hf : (pyPop d k').find? (fun e => e.1 == k) with
  | none => rfl
  | some e =>
    have hm := mem_pyPop (List.mem_of_find?_eq_some hf)
    have hk : (e.1 == k) = true := by simpa using List.find?_some hf
    cases hfd : d.find? (fun e => e.1 == k) with
    | some e' => rw [hfd] at h; cases h
    | none => exact absurd hk (List.find?_eq_none.mp hfd e hm)

theorem pyGet_pyPop_ne {d : PyDict} {k k' : String} (h : k ≠ k') :
    pyGet (pyPop d k') k = pyGet d k := by
  unfold pyGet pyPop
  induction d with
  | nil => rfl
  | cons e d ih =>
    by_cases he : (e.1 == k') = true
    · have hek : (e.1 == k) = false := by
        rw [beq_eq_false_iff_ne]
        simp only [beq_iff_eq] at he
        rw [he]; exact fun hc => h hc.symm
      simp only [List.filter_cons, he, Bool.not_true, if_false, List.find?_cons, hek]
      simpa using ih
    · simp only [List.filter_cons, he, Bool.not_false, if_true, List.find?_cons]
      cases hek : (e.1 == k) with
      | true => rfl
      | false => simpa using ih

theorem find?_map_keyReplace {d : PyDict} {k k' : String} {v : Val} (h : k ≠ k') :
    (d.map (fun e => if e.1 == k' then (k', v) else e)).find? (fun e => e.1 == k)
      = d.find? (fun e => e.1 == k) := by
  induction d with
  | nil => rfl
  | cons e d ih =>
    simp only [List.map_cons, List.find?_cons]
    by_cases he : (e.1 == k') = true
    · rw [if_pos he]
      have h1 : ((k', v).1 == k) = false := by
        rw [beq_eq_false_iff_ne]; exact fun hc => h hc.symm
      have h2 : (e.1 == k) = false := by
        rw [beq_eq_false_iff_ne]
        simp only [beq_iff_eq] at he
        rw [he]; exact fun hc => h hc.symm
      rw [h1, h2]
      exact ih
    · rw [if_neg he]
      cases hek : (e.1 == k) with
      | true => rfl
      | false => exact ih

theorem pyGet_pySet_ne {d : PyDict} {k k' : String} {v : Val} (h : k ≠ k') :
    pyGet (pySet d k' v) k = pyGet d k := by
  unfold pySet
  by_cases hk : pyHasKey d k'
  · rw [if_pos hk]
    unfold pyGet
    rw [find?_map_keyReplace h]
  · rw [if_neg hk]
    unfold pyGet
    rw [List.find?_append]
    have hone : List.find? (fun e => e.1 == k) [(k', v)] = none := by
      simp only [List.find?_cons]
      rw [show ((k', v).1 == k) = false by
        rw [beq_eq_false_iff_ne]; exact fun hc => h hc.symm]
      rfl
    rw [hone]
    cases List.find? (fun e => e.1 == k) d <;> rfl

theorem find?_key_filter {d2 : PyDict} {k : String} {q : String × Val → Bool}
    (hq : ∀ x : String × Val, x.1 = k → q x = true) :
    (d2.filter q).find? (fun e => e.1 == k) = d2.find? (fun e => e.1 == k) := by
  induction d2 with
  | nil => rfl
  | cons x d2 ih =>
    by_cases hxk : (x.1 == k) = true
    · have hqx := hq x (by simpa using hxk)
      simp [List.filter_cons, hqx, List.find?_cons, hxk]
    · by_cases hqx : q x = true
      · simp only [List.filter_cons, hqx, if_true, List.find?_cons, hxk]
        simpa [hxk] using ih
      · simp only [List.filter_cons, hqx, if_false, List.find?_cons, hxk]
        simpa [hxk] using ih

theorem pyHasKey_false_find? {d : PyDict} {k : String} (h : pyHasKey d k = false) :
    d.find? (fun e => e.1 == k) = none := by
  apply List.find?_eq_none.mpr
  intro x hx hc
  unfold pyHasKey at h
  rw [List.any_eq_false] at h
  exact h x hx hc

theorem pyGet_append (a b : PyDict) (k : String) :
    pyGet (a ++ b) k = (pyGet a k).or (pyGet b k) := by
  unfold pyGet
  rw [List.find?_append]
  cases a.find? (fun e => e.1 == k) <;> simp [Option.or]

theorem pyGet_cons (e : String × Val) (d : PyDict) (k : String) :
    pyGet (e :: d) k = if (e.1 == k) = true then some e.2 else pyGet d k := by
  unfold pyGet
  rw [List.find?_cons]
  cases h : (e.1 == k) <;> simp [h]

theorem pyGet_mapMergeFn (d1 d2 : PyDict) (k : String) :
    pyGet (d1.map (fun e => (e.1, (pyGet d2 e.1).getD e.2))) k
      = (pyGet d1 k).map (fun v => (pyGet d2 k).getD v) := by
  induction d1 with
  | nil => rfl
  | cons e d1 ih =>
    simp only [List.map_cons, pyGet_cons]
    by_cases he : (e.1 == k) = true
    · have hek : e.1 = k := by simpa using he
      simp only [he, if_true, Option.map_some']
      rw [hek]
    · simp only [he, if_false]
      exact ih

theorem pyGet_pyMerge (d1 d2 : PyDict) (k : String) :
    pyGet (pyMerge d1 d2) k =
      match pyGet d2 k with
      | some v => some v
      | none => pyGet d1 k := by
  unfold pyMerge
  rw [pyGet_append, pyGet_mapMergeFn]
  cases hg1 : pyGet d1 k with
  | some v1 =>
    cases hg2 : pyGet d2 k <;> simp [Option.or, Option.getD]
  | none =>
    simp only [Option.map_none', Option.none_or]
    have hkey : pyHasKey d1 k = false := by
      unfold pyHasKey
      cases hany : d1.any (fun e => e.1 == k) with
      | false => rfl
      | true =>
        obtain ⟨x, hx, hc⟩ := List.any_eq_true.mp hany
        have hf1 : d1.find? (fun e => e.1 == k) = none := by
          unfold pyGet at hg1
          cases hf : d1.find? (fun e => e.1 == k) with
          | none => rfl
          | some e => rw [hf] at hg1; cases hg1
        exact absurd hc (List.find?_eq_none.mp hf1 x hx)
    unfold pyGet
    rw [find?_key_filter (fun x hx => by
      simp only [Bool.not_eq_true']
      rw [hx]; exact hkey)]
    cases hf2 : d2.find? (fun e => e.1 == k) <;> simp [hf2]

/-! ## Character lemmas -/

theorem toNat_ofNat_small {n : Nat} (h : n < 0xD800) : (Char.ofNat n).toNat = n := by
  have hv : n.isValidChar := Or.inl h
  rw [Char.ofNat, dif_pos hv]
  simp [Char.ofNatAux, Char.toNat, UInt32.toNat]

/-- `Char.toLower` never produces an upper-case ASCII letter. -/
theorem toLower_not_upper (c : Char) :
    ¬(65 ≤ (Char.toLower c).toNat ∧ (Char.toLower c).toNat ≤ 90) := by
  unfold Char.toLower
  by_cases h : 65 ≤ c.toNat ∧ c.toNat ≤ 90
  · rw [if_pos h]
    rw [toNat_ofNat_small (by omega)]
    omega
  · rw [if_neg h]
    omega

theorem toLower_ne_of_upper {c d : Char} (h65 : 65 ≤ d.toNat) (h90 : d.toNat ≤ 90) :
    Char.toLower c ≠ d := by
  intro hc
  exact toLower_not_upper c (hc ▸ ⟨h65, h90⟩)

theorem lowerStr_ne_of_upper_mem {l target : Str} {d : Char}
    (hd : d ∈ target) (h65 : 65 ≤ d.toNat) (h90 : d.toNat ≤ 90) :
    lowerStr l ≠ target := by
  intro hc
  have : d ∈ lowerStr l := hc ▸ hd
  obtain ⟨c, _, hcl⟩ := List.mem_map.mp this
  exact toLower_ne_of_upper h65 h90 hcl

theorem digitChar_isDigit (r : Nat) : (digitChar r).isDigit = true := by
  unfold digitChar
  split <;> decide

theorem natDigitsFuel_all_digit (fuel n : Nat) :
    (natDigitsFuel fuel n).all Char.isDigit = true := by
  induction fuel generalizing n with
  | zero => rfl
  | succ fuel ih =>
    cases n with
    | zero => rfl
    | succ m =>
      rw [natDigitsFuel, List.all_append, ih]
      · simp [digitChar_isDigit]
      · omega

theorem natToStr_all_digit (n : Nat) : (natToStr n).all Char.isDigit = true := by
  unfold natToStr
  by_cases h : n = 0
  · rw [if_pos h]; rfl
  · rw [if_neg h]; exact natDigitsFuel_all_digit _ _

/-- A string of digits is never the literal `SKIPPED`. -/
theorem all_digit_ne_skipped {l : Str} (h : l.all Char.isDigit = true) :
    l ≠ "SKIPPED".toList := by
  intro hc
  have : ('S' : Char).isDigit = true := by
    have := List.all_eq_true.mp h 'S' (by rw [hc]; decide)
    exact this
  cases this

/-- A string whose length differs from 7 is never the literal `SKIPPED`. -/
theorem length_ne_skipped {l : Str} (h : l.length ≠ 7) : l ≠ "SKIPPED".toList := by
  intro hc
  exact h (by rw [hc]; rfl)

theorem mk_ne_of_toList {l : Str} {s : String} (h : l ≠ s.toList) : String.mk l ≠ s := by
  intro hc
  apply h
  rw [← hc]
  rfl

/-! ## Suppression-loop lemmas -/

theorem pyGet_pyPop_self (d : PyDict) (k : String) : pyGet (pyPop d k) k = none := by
  unfold pyGet
  cases hf : (pyPop d k).find? (fun e => e.1 == k) with
  | none => rfl
  | some e =>
    have hm := List.mem_of_find?_eq_some hf
    have hk : (e.1 == k) = true := by simpa using List.find?_some hf
    have hkeep := (List.mem_filter.mp hm).2
    rw [hk] at hkeep
    cases hkeep

theorem suppressFields_cons (g : Field) (fs : List Field) (c e : PyDict) :
    suppressFields (g :: fs) c e =
      suppressFields fs c
        (if should_skip_field g (pyMerge c e) = true then pyPop e g.field_name
         else e) := rfl

theorem suppress_no_add {fs : List Field} {c e : PyDict} {k : String}
    (h : pyGet e k = none) : pyGet (suppressFields fs c e) k = none := by
  induction fs generalizing e with
  | nil => exact h
  | cons g fs ih =>
    rw [suppressFields_cons]
    by_cases hg : should_skip_field g (pyMerge c e) = true
    · rw [if_pos hg]
      exact ih (pyGet_pyPop_none h)
    · rw [if_neg hg]
      exact ih h

theorem mem_suppress {fs : List Field} {c e : PyDict} {kv : String × Val}
    (h : kv ∈ suppressFields fs c e) : kv ∈ e := by
  induction fs generalizing e with
  | nil => exact h
  | cons g fs ih =>
    rw [suppressFields_cons] at h
    by_cases hg : should_skip_field g (pyMerge c e) = true
    · rw [if_pos hg] at h
      exact mem_pyPop (ih h)
    · rw [if_neg hg] at h
      exact ih h

theorem should_skip_congr {f : Field} {dep : DependsOn} (hdep : f.depends_on = some dep)
    {st st' : PyDict} (h : pyGet st dep.field = pyGet st' dep.field) :
    should_skip_field f st = should_skip_field f st' := by
  unfold should_skip_field
  rw [hdep]
  simp only [h]

/-- `should_skip_field` holds only for fields carrying a `depends_on`. -/
theorem should_skip_has_dep {f : Field} {st : PyDict}
    (h : should_skip_field f st = true) : f.depends_on ≠ none := by
  intro hc
  unfold should_skip_field at h
  rw [hc] at h
  cases h

/-- The conditional-suppression loop removes a field whose condition fails,
provided no schema field named as its dependency parent is itself
conditional (then the parent's merged value is stable along the loop). -/
theorem suppress_removes {fs : List Field} {c : PyDict} {f : Field}
    {dep : DependsOn} (hdep : f.depends_on = some dep)
    (hparent : ∀ g ∈ fs, g.field_name = dep.field → g.depends_on = none) :
    ∀ e : PyDict, f ∈ fs → should_skip_field f (pyMerge c e) = true →
      pyGet (suppressFields fs c e) f.field_name = none := by
  induction fs with
  | nil => intro e hmem; cases hmem
  | cons g fs ih =>
    intro e hmem hcond
    rw [suppressFields_cons]
    rcases List.mem_cons.mp hmem with rfl | hmem
    · rw [if_pos hcond]
      exact suppress_no_add (pyGet_pyPop_self _ _)
    · by_cases hg : should_skip_field g (pyMerge c e) = true
      · rw [if_pos hg]
        have hgdep : g.depends_on ≠ none := should_skip_has_dep hg
        have hgname : g.field_name ≠ dep.field := by
          intro hc
          exact hgdep (hparent g (List.mem_cons_self _ _) hc)
        have hcond' : should_skip_field f (pyMerge c (pyPop e g.field_name)) = true := by
          have hcongr : should_skip_field f (pyMerge c (pyPop e g.field_name))
              = should_skip_field f (pyMerge c e) := by
            refine should_skip_congr hdep ?_
            rw [pyGet_pyMerge, pyGet_pyMerge, pyGet_pyPop_ne (fun hc => hgname hc.symm)]
          rw [hcongr]
          exact hcond
        exact ih (fun g' hg' => hparent g' (List.mem_cons_of_mem _ hg')) _ hmem hcond'
      · rw [if_neg hg]
        exact ih (fun g' hg' => hparent g' (List.mem_cons_of_mem _ hg')) _ hmem hcond

/-- The WhatsApp capture step only ever touches the `_whatsapp_phone` key. -/
theorem whatsappCapture_pyGet_ne (um : String) (ic wc : Bool) (s : Session)
    (e : PyDict) (k : String) (hk : k ≠ "_whatsapp_phone") :
    pyGet (whatsappCapture um ic wc s e).1 k = pyGet e k := by
  unfold whatsappCapture
  split
  · split
    · split
      · rfl
      · exact pyGet_pySet_ne hk
    · rfl
  · rfl

/-! ## Schema-dict lemmas -/

theorem fieldNamesDict_entry {fields : List Field} :
    ∀ e ∈ fieldNamesDict fields, e.2 ∈ fields ∧ e.2.field_name = e.1 := by
  suffices h : ∀ (fs : List Field) (acc : List (String × Field)),
      (∀ f ∈ fs, f ∈ fields) →
      (∀ e ∈ acc, e.2 ∈ fields ∧ e.2.field_name = e.1) →
      ∀ e ∈ fs.foldl (fun acc f =>
        if acc.any (fun e => e.1 == f.field_name) then
          acc.map (fun e => if e.1 == f.field_name then (e.1, f) else e)
        else acc ++ [(f.field_name, f)]) acc,
        e.2 ∈ fields ∧ e.2.field_name = e.1 by
    intro e he
    exact h fields [] (fun f hf => hf) (by simp) e he
  intro fs
  induction fs with
  | nil => intro acc _ hacc e he; exact hacc e he
  | cons f fs ih =>
    intro acc hfs hacc e he
    rw [List.foldl_cons] at he
    refine ih _ (fun f' hf' => hfs f' (List.mem_cons_of_mem _ hf')) ?_ e he
    by_cases hk : acc.any (fun e => e.1 == f.field_name) = true
    · rw [if_pos hk]
      intro e' he'
      obtain ⟨e0, he0, heq⟩ := List.mem_map.mp he'
      by_cases h0 : (e0.1 == f.field_name) = true
      · rw [if_pos h0] at heq
        subst heq
        refine ⟨hfs f (List.mem_cons_self _ _), ?_⟩
        simp only [beq_iff_eq] at h0
        exact h0.symm
      · rw [if_neg h0] at heq
        exact heq ▸ hacc e0 he0
    · rw [if_neg hk]
      intro e' he'
      rcases List.mem_append.mp he' with h1 | h1
      · exact hacc e' h1
      · simp only [List.mem_singleton] at h1
        subst h1
        exact ⟨hfs f (List.mem_cons_self _ _), rfl⟩

theorem fieldNamesDict_find?_entry {fields : List Field} {k : String}
    {e : String × Field}
    (h : (fieldNamesDict fields).find? (fun e => e.1 == k) = some e) :
    e.2 ∈ fields ∧ e.2.field_name = k := by
  have hm := List.mem_of_find?_eq_some h
  have hk : (e.1 == k) = true := by simpa using List.find?_some h
  simp only [beq_iff_eq] at hk
  obtain ⟨h1, h2⟩ := fieldNamesDict_entry e hm
  exact ⟨h1, h2.trans hk⟩

theorem get_next_unfilled_spec {formSchema : FormSchema} {c : PyDict} {tf : String}
    (h : get_next_unfilled_field formSchema c = some tf) :
    ∃ f ∈ formSchema.fields, f.field_name = tf ∧ f.is_required = true ∧
      unfilled (pyGet c tf) = true := by
  obtain ⟨f, hf, hval⟩ := List.exists_of_findSome?_eq_some h
  by_cases hreq : (f.is_required && unfilled (pyGet c f.field_name)) = true
  · rw [if_pos hreq] at hval
    cases hval
    have hreq' : f.is_required = true ∧ unfilled (pyGet c f.field_name) = true := by
      simpa using hreq
    exact ⟨f, hf, rfl, hreq'.1, hreq'.2⟩
  · rw [if_neg hreq] at hval
    cases hval

/-! ## Fixtures used by the claim theorems -/

/-- A one-field schema with a required email field. -/
def emailSchema : FormSchema :=
  { fields := [{ field_name := "email", is_required := true,
                 semantic_label := "Email" }] }

/-- A one-field schema with a required free-text field. -/
def purposeSchema : FormSchema :=
  { fields := [{ field_name := "purpose", is_required := true,
                 semantic_label := "Purpose" }] }

/-- Chained-dependency schema: `employment_type` itself depends on an absent
`status_c`, and `office_city` depends on `employment_type = Salaried`. -/
def depSchema : FormSchema :=
  { fields :=
      [{ field_name := "employment_type",
         depends_on := some { field := "status_c", value := .one "x" } },
       { field_name := "office_city",
         depends_on := some { field := "employment_type", value := .one "Salaried" } }] }

/-- First/last-name schema without a middle-name field. -/
def nameSchemaFL : FormSchema :=
  { fields := [{ field_name := "first_name", data_type := "name" },
               { field_name := "last_name", data_type := "name" }] }

/-- First/middle/last-name schema. -/
def nameSchemaFML : FormSchema :=
  { fields := [{ field_name := "first_name", data_type := "name" },
               { field_name := "middle_name", data_type := "name" },
               { field_name := "last_name", data_type := "name" }] }

/-- Three required fields, for the progress computation. -/
def threeFieldSchema : FormSchema :=
  { fields := [{ field_name := "a", is_required := true },
               { field_name := "b", is_required := true },
               { field_name := "c", is_required := true }] }

/-! ## C4 — amount parser -/

/-- C4: the claim says `parse_amount "fifty thousand rupees"` yields `"50000"`
(as does the function's own docstring); in fact the ordinal-suffix stripping
`rstrip("sth").rstrip("nd").rstrip("rd")` mangles the scale word `thousand`
into `thousa`, which misses the word table, so the parser returns `"50"`.
The second example of the claim, `"around 2 lakh" → ("200000", false)`, does
hold. This theorem evaluates the embedded parser at both inputs. -/
theorem c4_amount_parser_behavior :
    parse_amount "fifty thousand rupees".toList = (some "50".toList, true) ∧
    parse_amount "around 2 lakh".toList = (some "200000".toList, false) := by
  constructor <;> decide

/-! ## C7 — date parser -/

/-- C7: the claim says `"15th March 1990"` parses to `"15/03/1990"` with
high confidence; in fact the day `15th` survives neither the word-number
path (`"15"` is not in the word table) nor the digit regex (no word boundary
between `15` and `th`), so the parser fails and returns `(none, false)`.
The second example, `"5/6/89"` giving a valid canonical date with
`confident = false`, does hold. -/
theorem c7_date_parser_behavior :
    parse_date ⟨2025, 1, 1⟩ "15th March 1990".toList = (none, false) ∧
    parse_date ⟨2025, 1, 1⟩ "5/6/89".toList
      = (some "05/06/1989".toList, false) := by
  constructor <;> decide

/-! ## C1 — completion gate -/

/-- C1: the claim says `is_complete = true` is returned only on an
affirmative turn while `awaiting_summary_confirm` is set. Evaluating the
turn function on a session that is NOT awaiting confirmation, with a
required field still unfilled and the model signalling `is_complete`, shows
the gate is bypassed: the turn returns `is_complete = true` directly and
never sets the flag (the gate at chat_engine.py:810 requires
`all_required_done`, so a premature model signal falls through). -/
theorem c1_completion_gate_bypassed :
    (Session.awaiting_summary_confirm {}) = false ∧
    hasConfirmWord "we will see" = false ∧
    (run_chat_turn "we will see" {} emailSchema "en" ⟨2025, 1, 1⟩
      (.tool { reply := "done", is_complete := true }) false).1.is_complete = true ∧
    (run_chat_turn "we will see" {} emailSchema "en" ⟨2025, 1, 1⟩
      (.tool { reply := "done", is_complete := true }) false).2.awaiting_summary_confirm
      = false := by
  refine ⟨rfl, by decide, by decide, by decide⟩

/-! ## C10 — affirmative substring finalization -/

/-- C10: while the session awaits summary confirmation, any message whose
lowered text contains a confirm word as a plain substring (also inside a
longer word) finalizes the session: `is_complete = true`, empty extraction,
collected state unchanged, and the result does not depend on the external
model response or the delivery-capability flag at all. -/
theorem c10_affirmative_substring_finalizes (userMessage : String)
    (session : Session) (formSchema : FormSchema) (lang : String) (now : PyDate)
    (resp resp' : ModelResp) (wa wa' : Bool)
    (hawait : session.awaiting_summary_confirm = true)
    (hconf : hasConfirmWord userMessage = true) :
    (run_chat_turn userMessage session formSchema lang now resp wa).1.is_complete
      = true ∧
    (run_chat_turn userMessage session formSchema lang now resp wa).1.extracted
      = [] ∧
    (run_chat_turn userMessage session formSchema lang now resp wa).2.collected
      = session.collected ∧
    run_chat_turn userMessage session formSchema lang now resp wa
      = run_chat_turn userMessage session formSchema lang now resp' wa' := by
  unfold run_chat_turn
  rw [hawait, hconf]
  simp

/-- C10 witness: the message `"broke"` (which contains the confirm word
`"ok"` inside a longer word) finalizes an awaiting session. -/
theorem c10_witness :
    (run_chat_turn "broke" { awaiting_summary_confirm := true } emailSchema "en"
      ⟨2025, 1, 1⟩ (.tool { reply := "x" }) false).1.is_complete = true ∧
    (run_chat_turn "broke" { awaiting_summary_confirm := true } emailSchema "en"
      ⟨2025, 1, 1⟩ (.tool { reply := "x" }) false).1.extracted = [] ∧
    (run_chat_turn "broke" { awaiting_summary_confirm := true } emailSchema "en"
      ⟨2025, 1, 1⟩ (.tool { reply := "x" }) false).2.collected
      = Session.collected { awaiting_summary_confirm := true } ∧
    run_chat_turn "broke" { awaiting_summary_confirm := true } emailSchema "en"
      ⟨2025, 1, 1⟩ (.tool { reply := "x" }) false
      = run_chat_turn "broke" { awaiting_summary_confirm := true } emailSchema "en"
        ⟨2025, 1, 1⟩ (.text none) true :=
  c10_affirmative_substring_finalizes "broke" { awaiting_summary_confirm := true }
    emailSchema "en" ⟨2025, 1, 1⟩ (.tool { reply := "x" }) (.text none) false true
    rfl (by decide)

/-! ## C9 — birth marker forces low confidence -/

/-- C9: whenever the input text contains the substring `"birth"` and the
date parser resolves a date, the returned confidence is `false`, regardless
of `now` (the future-date conjunction binds only to the `"dob"` marker:
`(dt > now and "dob" in text) or ("birth" in text)`). -/
theorem parse_date_finalize_birth (now : PyDate) (text : Str)
    (r : Option (Nat × Nat × Nat × Bool)) (d : Str)
    (hbirth : strContains (lowerStr text) "birth".toList = true)
    (hres : (parse_date_finalize now text r).1 = some d) :
    (parse_date_finalize now text r).2 = false := by
  rcases r with _ | ⟨dd, mm, yy, conf⟩
  · cases hres
  · by_cases hv : pyDateValid yy mm dd = true
    · have hb : strContains (lowerStr text) ['b', 'i', 'r', 't', 'h'] = true := hbirth
      simp [parse_date_finalize, hv, hb]
    · rw [parse_date_finalize, if_neg hv] at hres
      cases hres

theorem c9_birth_low_confidence (text : Str) (now : PyDate) (d : Str)
    (hbirth : strContains (lowerStr text) "birth".toList = true)
    (hres : (parse_date now text).1 = some d) :
    (parse_date now text).2 = false :=
  parse_date_finalize_birth now text (parse_date_resolve text) d hbirth hres

/-- C9 witness: `"date of birth 15 march 1990"` resolves to `15/03/1990`
(a past date) with `confident = false`. -/
theorem c9_witness :
    (parse_date ⟨2025, 6, 1⟩ "date of birth 15 march 1990".toList).1
      = some "15/03/1990".toList ∧
    (parse_date ⟨2025, 6, 1⟩ "date of birth 15 march 1990".toList).2 = false :=
  ⟨by decide,
   c9_birth_low_confidence "date of birth 15 march 1990".toList ⟨2025, 6, 1⟩
     "15/03/1990".toList (by decide) (by decide)⟩

/-! ## C6 — progress percentage -/

/-- Fifty required fields, of which the first 29 are filled. -/
def fiftyFieldSchema : FormSchema :=
  { fields := (List.range 50).map (fun i =>
      { field_name := String.mk (natToStr i), is_required := true }) }

def collected29 : PyDict :=
  (List.range 29).map (fun i => (String.mk (natToStr i), Val.s "x"))

/-- C6: the claim says `percent = round(completed/total_required*100)`; the
code computes `int(done / total * 100)` in binary64 arithmetic. With 2 of 3
required fields filled it reports 66 where the claimed rounding gives 67;
with 29 of 50 it reports 57 — below the claimed round (58) and below even
the exact truncation `29*100/50 = 58`, because the binary64 value of
`29/50` lies just under `0.58` and the product just under `58`. -/
theorem c6_progress_float_divergence :
    (compute_progress threeFieldSchema [("a", .s "1"), ("b", .s "2")]).percent
      = 66 ∧
    round ((2 * 100 : ℚ) / 3) = (67 : ℤ) ∧
    (compute_progress fiftyFieldSchema collected29).completed = 29 ∧
    (compute_progress fiftyFieldSchema collected29).total_required = 50 ∧
    (compute_progress fiftyFieldSchema collected29).percent = 57 ∧
    29 * 100 / 50 = 58 ∧
    round ((29 * 100 : ℚ) / 50) = (58 : ℤ) := by
  refine ⟨by decide, ?_, by decide, by decide, by decide, by decide, ?_⟩
  · rw [round_eq, show (2 * 100 : ℚ) / 3 + 1 / 2 = 403 / 6 by norm_num]
    rw [show (403 / 6 : ℚ) = (67 : ℤ) + (1 / 6 : ℚ) by norm_num]
    rw [Int.floor_int_add]
    norm_num [Int.floor_eq_zero_iff, Set.mem_Ico]
  · rw [round_eq, show (29 * 100 : ℚ) / 50 + 1 / 2 = 117 / 2 by norm_num]
    rw [show (117 / 2 : ℚ) = (58 : ℤ) + (1 / 2 : ℚ) by norm_num]
    rw [Int.floor_int_add]
    norm_num [Int.floor_eq_zero_iff, Set.mem_Ico]

/-! ## C5 — GSTIN format -/

/-- The GSTIN format exactly as the claim words it: 2 digits, then 5
letters, then 4 digits, then 1 letter, then the fixed letter `Z`, then 1
alphanumeric character (14 characters in total). -/
def gstinClaimFormat (l : Str) : Bool :=
  (l.length == 14) && (l.take 2).all Char.isDigit &&
  ((l.drop 2).take 5).all Char.isUpper &&
  ((l.drop 7).take 4).all Char.isDigit &&
  ((l.drop 11).take 1).all Char.isUpper &&
  ((l.drop 12).take 1).all (fun c => c == 'Z') &&
  (l.drop 13).all (fun c => c.isUpper || c.isDigit)

/-- The amended GSTIN format: 2 digits, 5 letters, 4 digits, 1 letter,
1 digit, the fixed letter `Z`, 1 alphanumeric character (15 characters). -/
def gstinSpecFormat (l : Str) : Bool :=
  (l.length == 15) && (l.take 2).all Char.isDigit &&
  ((l.drop 2).take 5).all Char.isUpper &&
  ((l.drop 7).take 4).all Char.isDigit &&
  ((l.drop 11).take 1).all Char.isUpper &&
  ((l.drop 12).take 1).all Char.isDigit &&
  ((l.drop 13).take 1).all (fun c => c == 'Z') &&
  (l.drop 14).all (fun c => c.isUpper || c.isDigit)

theorem gstinSpec_eq_match (l : Str) : gstinSpecFormat l = matchGstin l := by
  rcases l with _ | ⟨c0, l⟩; · rfl
  rcases l with _ | ⟨c1, l⟩; · rfl
  rcases l with _ | ⟨c2, l⟩; · rfl
  rcases l with _ | ⟨c3, l⟩; · rfl
  rcases l with _ | ⟨c4, l⟩; · rfl
  rcases l with _ | ⟨c5, l⟩; · rfl
  rcases l with _ | ⟨c6, l⟩; · rfl
  rcases l with _ | ⟨c7, l⟩; · rfl
  rcases l with _ | ⟨c8, l⟩; · rfl
  rcases l with _ | ⟨c9, l⟩; · rfl
  rcases l with _ | ⟨c10, l⟩; · rfl
  rcases l with _ | ⟨c11, l⟩; · rfl
  rcases l with _ | ⟨c12, l⟩; · rfl
  rcases l with _ | ⟨c13, l⟩; · rfl
  rcases l with _ | ⟨c14, l⟩; · rfl
  rcases l with _ | ⟨c15, l⟩
  · simp [gstinSpecFormat, matchGstin, Bool.and_assoc]
  · rfl

/-- The value canonicalization of the GSTIN branch: strip, uppercase,
remove whitespace. -/
def gstinCanon (value : String) : Str :=
  (upperStr (pyStrip value.toList)).filter (fun c => !c.isWhitespace)

/-- C5 counterexample: `"22ABCDE1234FZ5"` has exactly the form the claim
describes (2 digits + 5 letters + 4 digits + 1 letter + `Z` + 1
alphanumeric) yet the validator rejects it; and the validator accepts
`"22ABCDE1234F1Z5"`, which is not of the claimed form. So the claim's
"accepts exactly" description is false in both directions. -/
theorem c5_counterexample :
    gstinClaimFormat (gstinCanon "22ABCDE1234FZ5") = true ∧
    (hard_validate "gstin" "22ABCDE1234FZ5" { field_name := "gstin" }).1 = none ∧
    (hard_validate "gstin" "22ABCDE1234FZ5" { field_name := "gstin" }).2
      = some gstinErrMsg ∧
    hard_validate "gstin" "22ABCDE1234F1Z5" { field_name := "gstin" }
      = (some "22ABCDE1234F1Z5", none) ∧
    gstinClaimFormat (gstinCanon "22ABCDE1234F1Z5") = false := by
  refine ⟨by decide, by decide, by decide, by decide, by decide⟩

/-- C5 amended: for a GSTIN-designated field (and one not captured by the
earlier phone/PAN/Aadhaar branches of the dispatch chain), the Tier-1
validator accepts — after stripping, uppercasing and removing whitespace —
exactly the strings of the form 2 digits + 5 letters + 4 digits + 1 letter
+ 1 digit + fixed `Z` + 1 alphanumeric, and rejects everything else with
the non-null GSTIN correction message. -/
theorem c5_gstin_format (key value : String) (field : Field)
    (hg : strContains (lowerStr key.toList) "gstin".toList = true)
    (hphone : (strContains (lowerStr key.toList) "phone".toList ||
        strContains (lowerStr key.toList) "mobile".toList ||
        (field.data_type == "phone") ||
        (field.validation_type == some "phone")) = false)
    (hpan : (strContains (lowerStr key.toList) "pan".toList &&
        !strContains (lowerStr key.toList) "company".toList) = false)
    (haad : (strContains (lowerStr key.toList) "aadhaar".toList ||
        strContains (lowerStr key.toList) "aadhar".toList) = false) :
    hard_validate key value field
      = if gstinSpecFormat (gstinCanon value) = true then
          (some (String.mk (gstinCanon value)), none)
        else (none, some gstinErrMsg) := by
  unfold hard_validate
  rw [gstinSpec_eq_match]
  simp only [hphone, hpan, haad, hg, Bool.true_or, Bool.false_eq_true, if_false,
    if_true]
  rfl

/-- C5 witness: the field named `gstin` is GSTIN-designated and the
validator accepts the canonical 15-character form. -/
theorem c5_witness :
    hard_validate "gstin" "22abcde1234f1z5" { field_name := "gstin" }
      = (some "22ABCDE1234F1Z5", none) := by
  rw [c5_gstin_format "gstin" "22abcde1234f1z5" { field_name := "gstin" }
    (by decide) (by decide) (by decide) (by decide)]
  decide

/-! ## C8 — name splitting -/

theorem mk_toList (s : String) : String.mk s.toList = s := rfl

/-- Evaluation of the source selection on a single extracted entry keyed
by the first-name field. -/
theorem sns_src_eval (v : String) (fns : List (String × Field)) (a : Str)
    (l : List Str) (hstrip : pyStrip v.toList = v.toList)
    (hsplit : splitWs v.toList = a :: l) :
    sns_src [("first_name", .s v)] fns = some ("first_name", v) := by
  have hc : strContains (lowerStr ("first_name" : String).toList)
      ("name" : String).toList = true := by decide
  unfold sns_src
  simp only [List.findSome?_cons]
  simp only [hc, Bool.or_true, eq_self_iff_true, if_true]
  simp only [hsplit, List.length_cons, ge_iff_le, Nat.le_add_left, if_true,
    hstrip, mk_toList]

/-- Evaluation of the title phase when no title prefix matches. -/
theorem sns_title_none (v : String)
    (hfind : TITLE_PREFIXES.findSome? (fun p =>
      if strHasPref (lowerStr v.toList) p.toList then some p else none) = none) :
    sns_title v = (none, v) := by
  unfold sns_title
  rw [hfind]

/-- Reduction of `smart_name_split` once the source entry is known. -/
theorem smart_name_split_eq (v : String) (fs : FormSchema)
    (hsrc : sns_src [("first_name", .s v)] (fieldNamesDict fs.fields)
      = some ("first_name", v)) :
    smart_name_split [("first_name", .s v)] fs [] false
      = sns_assign [("first_name", .s v)] (fieldNamesDict fs.fields) [] false
          "first_name" v (sns_title v) := by
  unfold smart_name_split
  simp only [hsrc]

/-- Assignment phase on the first/last schema, one token. -/
theorem sns_assign_FL1 (v : String) (a : Str)
    (hsplit : splitWs v.toList = [a]) :
    sns_assign [("first_name", .s v)] (fieldNamesDict nameSchemaFL.fields) []
      false "first_name" v (none, v) = [("first_name", .s (String.mk a))] := by
  have e1 : find_fields (fieldNamesDict nameSchemaFL.fields)
      ["first_name", "fname", "given_name"] (some "name") = ["first_name"] := by decide
  have e2 : find_fields (fieldNamesDict nameSchemaFL.fields)
      ["middle_name", "mname", "middle"] (some "name") = [] := by decide
  have e3 : find_fields (fieldNamesDict nameSchemaFL.fields)
      ["last_name", "lname", "surname", "family_name"] (some "name") = ["last_name"] := by decide
  have e4 : find_fields (fieldNamesDict nameSchemaFL.fields)
      ["full_name", "name", "applicant_name", "candidate_name"] (some "name")
      = ["first_name", "last_name"] := by decide
  unfold sns_assign
  simp only [e1, e2, e3, e4]
  simp only [hsplit]
  simp [sns_write_parts, sns_write_title, pySet, pyHasKey, pyGet, emptyish]

/-- Assignment phase on the first/last schema, two tokens. -/
theorem sns_assign_FL2 (v : String) (a b : Str)
    (hsplit : splitWs v.toList = [a, b]) :
    sns_assign [("first_name", .s v)] (fieldNamesDict nameSchemaFL.fields) []
      false "first_name" v (none, v)
      = [("first_name", .s (String.mk a)), ("last_name", .s (String.mk b))] := by
  have e1 : find_fields (fieldNamesDict nameSchemaFL.fields)
      ["first_name", "fname", "given_name"] (some "name") = ["first_name"] := by decide
  have e2 : find_fields (fieldNamesDict nameSchemaFL.fields)
      ["middle_name", "mname", "middle"] (some "name") = [] := by decide
  have e3 : find_fields (fieldNamesDict nameSchemaFL.fields)
      ["last_name", "lname", "surname", "family_name"] (some "name") = ["last_name"] := by decide
  have e4 : find_fields (fieldNamesDict nameSchemaFL.fields)
      ["full_name", "name", "applicant_name", "candidate_name"] (some "name")
      = ["first_name", "last_name"] := by decide
  unfold sns_assign
  simp only [e1, e2, e3, e4]
  simp only [hsplit]
  simp [sns_write_parts, sns_write_title, pySet, pyHasKey, pyGet, emptyish]

/-- Assignment phase on the first/last schema, three or more tokens. -/
theorem sns_assign_FL3 (v : String) (a : Str) (rest : List Str)
    (hlen : 2 ≤ rest.length) (hsplit : splitWs v.toList = a :: rest) :
    sns_assign [("first_name", .s v)] (fieldNamesDict nameSchemaFL.fields) []
      false "first_name" v (none, v)
      = [("first_name", .s (String.mk a)),
         ("last_name", .s (String.mk (joinSp rest)))] := by
  have e1 : find_fields (fieldNamesDict nameSchemaFL.fields)
      ["first_name", "fname", "given_name"] (some "name") = ["first_name"] := by decide
  have e2 : find_fields (fieldNamesDict nameSchemaFL.fields)
      ["middle_name", "mname", "middle"] (some "name") = [] := by decide
  have e3 : find_fields (fieldNamesDict nameSchemaFL.fields)
      ["last_name", "lname", "surname", "family_name"] (some "name") = ["last_name"] := by decide
  have e4 : find_fields (fieldNamesDict nameSchemaFL.fields)
      ["full_name", "name", "applicant_name", "candidate_name"] (some "name")
      = ["first_name", "last_name"] := by decide
  have hne1 : ¬ (rest.length = 1) := by omega
  unfold sns_assign
  simp only [e1, e2, e3, e4]
  simp only [hsplit]
  simp [sns_write_parts, sns_write_title, pySet, pyHasKey, pyGet, emptyish, hne1, hlen]

/-- Assignment phase on the first/middle/last schema, three tokens. -/
theorem sns_assign_FML3 (v : String) (a b c : Str)
    (hsplit : splitWs v.toList = [a, b, c]) :
    sns_assign [("first_name", .s v)] (fieldNamesDict nameSchemaFML.fields) []
      false "first_name" v (none, v)
      = [("first_name", .s (String.mk a)), ("middle_name", .s (String.mk b)),
         ("last_name", .s (String.mk c))] := by
  have e1 : find_fields (fieldNamesDict nameSchemaFML.fields)
      ["first_name", "fname", "given_name"] (some "name") = ["first_name"] := by decide
  have e2 : find_fields (fieldNamesDict nameSchemaFML.fields)
      ["middle_name", "mname", "middle"] (some "name") = ["middle_name"] := by decide
  have e3 : find_fields (fieldNamesDict nameSchemaFML.fields)
      ["last_name", "lname", "surname", "family_name"] (some "name") = ["last_name"] := by decide
  have e4 : find_fields (fieldNamesDict nameSchemaFML.fields)
      ["full_name", "name", "applicant_name", "candidate_name"] (some "name")
      = ["first_name", "middle_name", "last_name"] := by decide
  unfold sns_assign
  simp only [e1, e2, e3, e4]
  simp only [hsplit]
  simp [sns_write_parts, sns_write_title, pySet, pyHasKey, pyGet, emptyish]

/-- C8: for a schema with first- and last-name fields, an extracted
multi-token name value (with no title prefix, already stripped) is split on
whitespace: one token fills the first name only; two tokens fill first and
last; three or more tokens without a middle-name field put the first token
in the first name and the rest, joined, in the last name; three tokens with
a middle-name field fill first, middle and last. -/
theorem c8_name_split (v : String) (parts : List Str)
    (hstrip : pyStrip v.toList = v.toList)
    (htitle : ∀ p ∈ TITLE_PREFIXES, strHasPref (lowerStr v.toList) p.toList = false)
    (hsplit : splitWs v.toList = parts) :
    (∀ a, parts = [a] →
      pyGet (smart_name_split [("first_name", .s v)] nameSchemaFL [] false)
          "first_name" = some (.s (String.mk a)) ∧
      pyGet (smart_name_split [("first_name", .s v)] nameSchemaFL [] false)
          "last_name" = none) ∧
    (∀ a b, parts = [a, b] →
      pyGet (smart_name_split [("first_name", .s v)] nameSchemaFL [] false)
          "first_name" = some (.s (String.mk a)) ∧
      pyGet (smart_name_split [("first_name", .s v)] nameSchemaFL [] false)
          "last_name" = some (.s (String.mk b))) ∧
    (∀ a rest, parts = a :: rest → 2 ≤ rest.length →
      pyGet (smart_name_split [("first_name", .s v)] nameSchemaFL [] false)
          "first_name" = some (.s (String.mk a)) ∧
      pyGet (smart_name_split [("first_name", .s v)] nameSchemaFL [] false)
          "last_name" = some (.s (String.mk (joinSp rest)))) ∧
    (∀ a b c, parts = [a, b, c] →
      pyGet (smart_name_split [("first_name", .s v)] nameSchemaFML [] false)
          "first_name" = some (.s (String.mk a)) ∧
      pyGet (smart_name_split [("first_name", .s v)] nameSchemaFML [] false)
          "middle_name" = some (.s (String.mk b)) ∧
      pyGet (smart_name_split [("first_name", .s v)] nameSchemaFML [] false)
          "last_name" = some (.s (String.mk c))) := by
  have hfind : TITLE_PREFIXES.findSome? (fun p =>
      if strHasPref (lowerStr v.toList) p.toList then some p else none) = none := by
    have h1 : strHasPref (lowerStr v.data) ['d', 'r', '.'] = false := htitle "dr." (by decide)
    have h2 : strHasPref (lowerStr v.data) ['m', 'r', '.'] = false := htitle "mr." (by decide)
    have h3 : strHasPref (lowerStr v.data) ['m', 'r', 's', '.'] = false := htitle "mrs." (by decide)
    have h4 : strHasPref (lowerStr v.data) ['m', 's', '.'] = false := htitle "ms." (by decide)
    have h5 : strHasPref (lowerStr v.data) ['p', 'r', 'o', 'f', '.'] = false := htitle "prof." (by decide)
    have h6 : strHasPref (lowerStr v.data) ['e', 'r', '.'] = false := htitle "er." (by decide)
    have h7 : strHasPref (lowerStr v.data) ['a', 'd', 'v', '.'] = false := htitle "adv." (by decide)
    simp [TITLE_PREFIXES, List.findSome?_cons, h1, h2, h3, h4, h5, h6, h7]
  refine ⟨?_, ?_, ?_, ?_⟩
  · intro a hp
    rw [hp] at hsplit
    rw [smart_name_split_eq v nameSchemaFL (sns_src_eval v _ a [] hstrip hsplit),
      sns_title_none v hfind, sns_assign_FL1 v a hsplit]
    exact ⟨rfl, rfl⟩
  · intro a b hp
    rw [hp] at hsplit
    rw [smart_name_split_eq v nameSchemaFL (sns_src_eval v _ a [b] hstrip hsplit),
      sns_title_none v hfind, sns_assign_FL2 v a b hsplit]
    exact ⟨rfl, rfl⟩
  · intro a rest hp hlen
    rw [hp] at hsplit
    rw [smart_name_split_eq v nameSchemaFL (sns_src_eval v _ a rest hstrip hsplit),
      sns_title_none v hfind, sns_assign_FL3 v a rest hlen hsplit]
    exact ⟨rfl, rfl⟩
  · intro a b c hp
    rw [hp] at hsplit
    rw [smart_name_split_eq v nameSchemaFML (sns_src_eval v _ a [b, c] hstrip hsplit),
      sns_title_none v hfind, sns_assign_FML3 v a b c hsplit]
    exact ⟨rfl, rfl, rfl⟩

/-- Witness for C8 at the concrete name Rahul Kumar Sharma: three tokens
with no middle-name field give first = Rahul, last = Kumar Sharma. -/
theorem c8_name_split_witness :
    pyStrip ("Rahul Kumar Sharma" : String).toList
        = ("Rahul Kumar Sharma" : String).toList ∧
    (∀ p ∈ TITLE_PREFIXES,
      strHasPref (lowerStr ("Rahul Kumar Sharma" : String).toList) p.toList = false) ∧
    splitWs ("Rahul Kumar Sharma" : String).toList
        = ["Rahul".toList, "Kumar".toList, "Sharma".toList] ∧
    pyGet (smart_name_split [("first_name", .s "Rahul Kumar Sharma")]
        nameSchemaFL [] false) "first_name" = some (.s "Rahul") ∧
    pyGet (smart_name_split [("first_name", .s "Rahul Kumar Sharma")]
        nameSchemaFL [] false) "last_name" = some (.s "Kumar Sharma") :=
  ⟨by decide, by decide, by decide,
   ((c8_name_split "Rahul Kumar Sharma"
        ["Rahul".toList, "Kumar".toList, "Sharma".toList]
        (by decide) (by decide) (by decide)).2.2.1
      "Rahul".toList ["Kumar".toList, "Sharma".toList] rfl (by decide)).1,
   ((c8_name_split "Rahul Kumar Sharma"
        ["Rahul".toList, "Kumar".toList, "Sharma".toList]
        (by decide) (by decide) (by decide)).2.2.1
      "Rahul".toList ["Kumar".toList, "Sharma".toList] rfl (by decide)).2⟩

/-! ## C3 — dependent-field suppression -/

/-- A schema whose parent field is itself dependency-free. -/
def depSchemaFlat : FormSchema :=
  { fields :=
      [{ field_name := "employment_type" },
       { field_name := "office_city",
         depends_on := some { field := "employment_type", value := .one "Salaried" } }] }

/-- Counterexample to C3 as stated: in `depSchema` the parent
`employment_type` is itself dependent (on `status_c`), so the suppression
loop pops it from the extraction before `office_city` is checked; the check
for `office_city` then sees the stale collected value `Salaried` and keeps
it, although the dependency condition fails against the collected state
merged with the turn's candidate extraction (where `employment_type` is
`Self-employed`). -/
theorem c3_counterexample :
    ({ field_name := "office_city",
       depends_on := some { field := "employment_type", value := .one "Salaried" } }
      : Field) ∈ depSchema.fields ∧
    should_skip_field
      { field_name := "office_city",
        depends_on := some { field := "employment_type", value := .one "Salaried" } }
      (pyMerge [("employment_type", .s "Salaried")]
        (candidateExtraction "I work for myself in Mumbai"
          { collected := [("employment_type", .s "Salaried")] } depSchema
          ⟨2025, 1, 1⟩
          (.tool { reply := "Noted.",
                   extracted := [("employment_type", .s "Self-employed"),
                                 ("office_city", .s "Mumbai")] }))) = true ∧
    pyGet (run_chat_turn "I work for myself in Mumbai"
        { collected := [("employment_type", .s "Salaried")] } depSchema "en"
        ⟨2025, 1, 1⟩
        (.tool { reply := "Noted.",
                 extracted := [("employment_type", .s "Self-employed"),
                               ("office_city", .s "Mumbai")] })
        false).1.extracted "office_city" = some (.s "Mumbai") := by
  decide

/-- C3 (amended): for a field with a `depends_on` clause whose referenced
parent fields are themselves dependency-free, if the dependency condition
fails against the collected state merged with the turn's candidate
extraction, the field is absent from the turn's extraction output. (The
amendment restricts the claim to dependency-free parents: as
`c3_counterexample` shows, a dependent parent can be popped by an earlier
iteration of the suppression loop, after which the condition is evaluated
against the stale collected parent value and the child survives.) -/
theorem c3_dependent_field_suppressed (userMessage : String)
    (session : Session) (formSchema : FormSchema) (lang : String)
    (now : PyDate) (resp : ModelResp) (waConf : Bool) (f : Field)
    (dep : DependsOn)
    (hawait : session.awaiting_summary_confirm = false)
    (hf : f ∈ formSchema.fields)
    (hdep : f.depends_on = some dep)
    (hparent : ∀ g ∈ formSchema.fields, g.field_name = dep.field →
      g.depends_on = none)
    (hwa : f.field_name ≠ "_whatsapp_phone")
    (hcond : should_skip_field f (pyMerge session.collected
        (candidateExtraction userMessage session formSchema now resp)) = true) :
    pyGet (run_chat_turn userMessage session formSchema lang now resp
        waConf).1.extracted f.field_name = none := by
  have hsup := suppress_removes hdep hparent
    (candidateExtraction userMessage session formSchema now resp) hf hcond
  unfold run_chat_turn
  simp only [hawait, Bool.false_and, Bool.false_eq_true, if_false]
  rw [whatsappCapture_pyGet_ne _ _ _ _ _ _ hwa]
  exact hsup

/-- Witness for C3 at a concrete turn: with a dependency-free parent, an
extracted `office_city` is suppressed when `employment_type` is `Student`. -/
theorem c3_witness :
    ({} : Session).awaiting_summary_confirm = false ∧
    ({ field_name := "office_city",
       depends_on := some { field := "employment_type", value := .one "Salaried" } }
      : Field) ∈ depSchemaFlat.fields ∧
    should_skip_field
      { field_name := "office_city",
        depends_on := some { field := "employment_type", value := .one "Salaried" } }
      (pyMerge ([] : PyDict)
        (candidateExtraction "I am a student in Mumbai" {} depSchemaFlat
          ⟨2025, 1, 1⟩
          (.tool { reply := "Noted.",
                   extracted := [("employment_type", .s "Student"),
                                 ("office_city", .s "Mumbai")] }))) = true ∧
    pyGet (run_chat_turn "I am a student in Mumbai" {} depSchemaFlat "en"
        ⟨2025, 1, 1⟩
        (.tool { reply := "Noted.",
                 extracted := [("employment_type", .s "Student"),
                               ("office_city", .s "Mumbai")] })
        false).1.extracted "office_city" = none :=
  ⟨rfl, by decide, by decide,
   c3_dependent_field_suppressed "I am a student in Mumbai" {} depSchemaFlat
     "en" ⟨2025, 1, 1⟩
     (.tool { reply := "Noted.",
              extracted := [("employment_type", .s "Student"),
                            ("office_city", .s "Mumbai")] })
     false
     { field_name := "office_city",
       depends_on := some { field := "employment_type", value := .one "Salaried" } }
     { field := "employment_type", value := .one "Salaried" }
     rfl (by decide) rfl (by decide) (by decide) (by decide)⟩

/-! ## C2 — the literal SKIPPED is never persisted by the pipeline -/

/-- A value that does not contain the literal `SKIPPED` as a substring. -/
def skFreeVal : Val → Bool
  | .s sv => !(strContains sv.toList "SKIPPED".toList)
  | .b _ => true

theorem skFreeVal_elim {sv : String} (h : skFreeVal (.s sv) = true) :
    strContains sv.toList "SKIPPED".toList = false := by
  simpa [skFreeVal] using h

theorem skFreeVal_intro {sv : String}
    (h : strContains sv.toList "SKIPPED".toList = false) :
    skFreeVal (.s sv) = true := by
  simp only [skFreeVal, h, Bool.not_false]

theorem skFreeVal_ne {w : Val} (h : skFreeVal w = true) : w ≠ .s "SKIPPED" := by
  intro hc
  subst hc
  have := skFreeVal_elim h
  rw [strContains_self] at this
  cases this

theorem ne_of_mem_not_mem {l t : Str} {c : Char} (hc : c ∈ l) (hnc : c ∉ t) :
    l ≠ t := fun h => hnc (h ▸ hc)

theorem pyRstrip_decomp (l cs : Str) : ∃ post, l = pyRstrip l cs ++ post := by
  refine ⟨(l.reverse.takeWhile (fun c => cs.contains c)).reverse, ?_⟩
  unfold pyRstrip
  rw [← List.reverse_append, List.takeWhile_append_dropWhile, List.reverse_reverse]

theorem splitWs_token_skfree {l t : Str}
    (hl : strContains l "SKIPPED".toList = false) (ht : t ∈ splitWs l) :
    strContains t "SKIPPED".toList = false := by
  obtain ⟨pre, post, hdec⟩ := splitWs_token_decomp ht
  exact strContains_false_of_part hdec hl

theorem getD_token_skfree {l : Str} {i : Nat}
    (hl : strContains l "SKIPPED".toList = false) :
    strContains ((splitWs l).getD i []) "SKIPPED".toList = false := by
  by_cases h : i < (splitWs l).length
  · rw [List.getD_eq_getElem _ _ h]
    exact splitWs_token_skfree hl (List.getElem_mem _)
  · rw [List.getD_eq_default _ _ (Nat.le_of_not_lt h)]
    decide

theorem joinSp_skfree {ts : List Str}
    (h : ∀ t ∈ ts, strContains t "SKIPPED".toList = false) :
    strContains (joinSp ts) "SKIPPED".toList = false := by
  cases hc : strContains (joinSp ts) "SKIPPED".toList
  · rfl
  · exfalso
    obtain ⟨t, htm, hocc⟩ := joinSp_occurrence (by decide) (by decide)
      (strContains_iff.mp hc)
    have h1 := h t htm
    have h2 : strContains t "SKIPPED".toList = true := strContains_iff.mpr hocc
    rw [h1] at h2
    cases h2

theorem all_skFree_pySet {d : PyDict} {k : String} {v : Val}
    (hd : ∀ kv ∈ d, skFreeVal kv.2 = true) (hv : skFreeVal v = true) :
    ∀ kv ∈ pySet d k v, skFreeVal kv.2 = true := by
  intro kv h
  rcases mem_pySet h with rfl | h
  · exact hv
  · exact hd kv h

theorem foldl_pySet_skfree (g : PyDict → String × Val → PyDict)
    (hg : ∀ acc kv, (∀ e ∈ acc, skFreeVal e.2 = true) → skFreeVal kv.2 = true →
        ∀ e ∈ g acc kv, skFreeVal e.2 = true) :
    ∀ (m acc : PyDict), (∀ kv ∈ m, skFreeVal kv.2 = true) →
      (∀ e ∈ acc, skFreeVal e.2 = true) →
      ∀ e ∈ m.foldl g acc, skFreeVal e.2 = true := by
  intro m
  induction m with
  | nil => intro acc _ hacc e he; exact hacc e he
  | cons kv m ih =>
    intro acc hm hacc e he
    rw [List.foldl_cons] at he
    exact ih _ (fun kv' h => hm kv' (List.mem_cons_of_mem _ h))
      (hg acc kv hacc (hm kv (List.mem_cons_self _ _))) e he

/-- `_clean_extracted` only keeps model values or replaces them by booleans. -/
theorem clean_extracted_skfree {m : PyDict} {fs : FormSchema}
    (hm : ∀ kv ∈ m, skFreeVal kv.2 = true) :
    ∀ kv ∈ clean_extracted m fs, skFreeVal kv.2 = true := by
  unfold clean_extracted
  refine foldl_pySet_skfree _ ?_ m [] hm (by simp)
  intro acc kv hacc hkv e he
  obtain ⟨k, v⟩ := kv
  cases v with
  | b bv =>
    dsimp only at he hkv
    repeat' split at he
    all_goals first
      | exact hacc e he
      | exact all_skFree_pySet hacc hkv e he
  | s sv =>
    dsimp only at he hkv
    repeat' split at he
    all_goals first
      | exact hacc e he
      | exact all_skFree_pySet hacc hkv e he
      | (refine all_skFree_pySet hacc ?_ e he; rfl)

/-- The name value selected by `_smart_name_split` is a stripped extracted
string value, hence SKIPPED-free. -/
theorem sns_src_skfree {d : PyDict} {fns : List (String × Field)}
    {k nv : String} (hd : ∀ kv ∈ d, skFreeVal kv.2 = true)
    (h : sns_src d fns = some (k, nv)) :
    strContains nv.toList "SKIPPED".toList = false := by
  unfold sns_src at h
  obtain ⟨kv, hkv, hf⟩ := List.exists_of_findSome?_eq_some h
  obtain ⟨k0, v⟩ := kv
  dsimp only at hf
  split at hf
  · split at hf
    · next sv =>
      split at hf
      · cases hf
        have hfree := skFreeVal_elim (hd _ hkv)
        obtain ⟨pre, post, hdec⟩ := pyStrip_decomp sv.toList
        exact strContains_false_of_part hdec hfree
      · cases hf
    · cases hf
  · cases hf

/-- Both outputs of the title phase are parts of its input. -/
theorem sns_title_skfree {nv : String} {t : Option String} {nc : String}
    (hnv : strContains nv.toList "SKIPPED".toList = false)
    (h : sns_title nv = (t, nc)) :
    strContains nc.toList "SKIPPED".toList = false ∧
      ∀ ts, t = some ts → strContains ts.toList "SKIPPED".toList = false := by
  unfold sns_title at h
  split at h
  · next p hp =>
    cases h
    have htake : strContains (nv.toList.take p.length) "SKIPPED".toList = false := by
      refine strContains_false_of_pre_post [] (nv.toList.drop p.length)
        ?_ hnv
      rw [List.nil_append, List.take_append_drop]
    have hdrop : strContains (nv.toList.drop p.length) "SKIPPED".toList = false := by
      refine strContains_false_of_pre_post (nv.toList.take p.length) []
        ?_ hnv
      rw [List.append_nil, List.take_append_drop]
    constructor
    · obtain ⟨pre, post, hdec⟩ := pyStrip_decomp (nv.toList.drop p.length)
      exact strContains_false_of_part hdec hdrop
    · intro ts hts
      cases hts
      obtain ⟨post1, hdec1⟩ := pyRstrip_decomp (nv.toList.take p.length) ['.']
      have hdec2 : List.take p.length nv.toList
          = [] ++ pyRstrip (List.take p.length nv.toList) ['.'] ++ post1 := by
        rw [List.nil_append]; exact hdec1
      exact strContains_false_of_part hdec2 htake
  · cases h
    exact ⟨hnv, fun ts hts => by cases hts⟩

theorem sns_write_parts_skfree {e : PyDict} {fk lk : String}
    {mk : Option String} {nc : Str}
    (hd : ∀ kv ∈ e, skFreeVal kv.2 = true)
    (hnc : strContains nc "SKIPPED".toList = false) :
    ∀ kv ∈ sns_write_parts e fk lk mk (splitWs nc), skFreeVal kv.2 = true := by
  have htok : ∀ i, skFreeVal (.s (String.mk ((splitWs nc).getD i []))) = true :=
    fun i => skFreeVal_intro (getD_token_skfree hnc)
  have hjoin : skFreeVal (.s (String.mk (joinSp ((splitWs nc).drop 1)))) = true :=
    skFreeVal_intro (joinSp_skfree (fun t ht =>
      splitWs_token_skfree hnc (List.drop_subset _ _ ht)))
  unfold sns_write_parts
  split
  · exact all_skFree_pySet (all_skFree_pySet hd (htok 0)) (htok 1)
  · split
    · exact all_skFree_pySet
        (all_skFree_pySet (all_skFree_pySet hd (htok 0)) (htok 1)) (htok 2)
    · split
      · exact all_skFree_pySet (all_skFree_pySet hd (htok 0)) hjoin
      · split
        · exact all_skFree_pySet hd (htok 0)
        · exact hd

theorem sns_write_title_skfree {e : PyDict} {fns : List (String × Field)}
    {c : PyDict} {fu : Bool} {t : Option String}
    (hd : ∀ kv ∈ e, skFreeVal kv.2 = true)
    (ht : ∀ ts, t = some ts → strContains ts.toList "SKIPPED".toList = false) :
    ∀ kv ∈ sns_write_title e fns c fu t, skFreeVal kv.2 = true := by
  unfold sns_write_title
  split
  · split
    · split
      · exact all_skFree_pySet hd (skFreeVal_intro (ht _ rfl))
      · exact hd
    · exact hd
  · exact hd

theorem sns_assign_skfree {d : PyDict} {fns : List (String × Field)}
    {c : PyDict} {fu : Bool} {k nv : String} {t : Option String} {nc : String}
    (hd : ∀ kv ∈ d, skFreeVal kv.2 = true)
    (hnv : strContains nv.toList "SKIPPED".toList = false)
    (hnc : strContains nc.toList "SKIPPED".toList = false)
    (ht : ∀ ts, t = some ts → strContains ts.toList "SKIPPED".toList = false) :
    ∀ kv ∈ sns_assign d fns c fu k nv (t, nc), skFreeVal kv.2 = true := by
  intro kv hkv
  unfold sns_assign at hkv
  dsimp only at hkv
  split at hkv
  · split at hkv
    · rcases mem_pySet hkv with rfl | hkv2
      · exact skFreeVal_intro hnv
      · split at hkv2
        · exact sns_write_title_skfree
            (by split; exacts [sns_write_parts_skfree hd hnc, hd]) ht kv hkv2
        · exact hd kv hkv2
    · split at hkv
      · exact sns_write_title_skfree
          (by split; exacts [sns_write_parts_skfree hd hnc, hd]) ht kv hkv
      · exact hd kv hkv
  · split at hkv
    · exact sns_write_title_skfree
        (by split; exacts [sns_write_parts_skfree hd hnc, hd]) ht kv hkv
    · exact hd kv hkv

/-- `_smart_name_split` only writes parts of extracted string values. -/
theorem smart_name_split_skfree {d : PyDict} {fs : FormSchema} {c : PyDict}
    {fu : Bool} (hd : ∀ kv ∈ d, skFreeVal kv.2 = true) :
    ∀ kv ∈ smart_name_split d fs c fu, skFreeVal kv.2 = true := by
  intro kv hkv
  unfold smart_name_split at hkv
  dsimp only at hkv
  split at hkv
  · exact hd kv hkv
  · next k nv heq =>
    have hnv := sns_src_skfree hd heq
    rcases hts : sns_title nv with ⟨t, nc⟩
    rw [hts] at hkv
    obtain ⟨hnc, ht⟩ := sns_title_skfree hnv hts
    exact sns_assign_skfree hd hnv hnc ht kv hkv

theorem matchPhone10_length {l : Str} (h : matchPhone10 l = true) :
    l.length = 10 := by
  unfold matchPhone10 at h
  simp at h
  exact h.1

theorem matchPan_length {l : Str} (h : matchPan l = true) : l.length = 10 := by
  unfold matchPan at h
  simp at h
  exact h.1.1.1

theorem matchAadhaar_length {l : Str} (h : matchAadhaar l = true) :
    l.length = 12 := by
  unfold matchAadhaar at h
  simp at h
  exact h.1

theorem matchGstin_length {l : Str} (h : matchGstin l = true) :
    l.length = 15 := by
  unfold matchGstin at h
  split at h
  · rfl
  · cases h

theorem matchIfsc_length {l : Str} (h : matchIfsc l = true) : l.length = 11 := by
  unfold matchIfsc at h
  simp at h
  exact h.1.1.1

theorem matchTan_length {l : Str} (h : matchTan l = true) : l.length = 10 := by
  unfold matchTan at h
  simp at h
  exact h.1.1.1

/-- Every normalized value produced error-free by `_hard_validate` differs
from the literal SKIPPED. -/
theorem hard_validate_ne_skipped {key value : String} {field : Field}
    {n : String} (hv : strContains value.toList "SKIPPED".toList = false)
    (h : (hard_validate key value field).1 = some n) : n ≠ "SKIPPED" := by
  unfold hard_validate at h
  dsimp only at h
  split at h
  · -- phone: the digit-prefix trim splits first, then the match test
    split at h
    · split at h
      · next hg =>
        cases h
        exact mk_ne_of_toList
          (length_ne_skipped (by rw [matchPhone10_length hg]; decide))
      · cases h
    · split at h
      · next hg =>
        cases h
        exact mk_ne_of_toList
          (length_ne_skipped (by rw [matchPhone10_length hg]; decide))
      · cases h
  · split at h
    · -- pan
      split at h
      · next hg =>
        cases h
        exact mk_ne_of_toList (length_ne_skipped (by rw [matchPan_length hg]; decide))
      · cases h
    · split at h
      · -- aadhaar
        split at h
        · next hg =>
          cases h
          exact mk_ne_of_toList (length_ne_skipped (by rw [matchAadhaar_length hg]; decide))
        · cases h
      · split at h
        · -- gstin
          split at h
          · next hg =>
            cases h
            exact mk_ne_of_toList (length_ne_skipped (by rw [matchGstin_length hg]; decide))
          · cases h
        · split at h
          · -- ifsc
            split at h
            · next hg =>
              cases h
              exact mk_ne_of_toList (length_ne_skipped (by rw [matchIfsc_length hg]; decide))
            · cases h
          · split at h
            · -- tan
              split at h
              · next hg =>
                cases h
                exact mk_ne_of_toList (length_ne_skipped (by rw [matchTan_length hg]; decide))
              · cases h
            · split at h
              · -- email
                split at h
                · cases h
                  exact mk_ne_of_toList
                    (lowerStr_ne_of_upper_mem (d := Char.ofNat 83) (by decide)
                      (by decide) (by decide))
                · cases h
              · -- default: the raw value passes through
                cases h
                intro hc
                subst hc
                rw [strContains_self] at hv
                cases hv

/-- Any date string produced by `parse_date` carries a slash. -/
theorem parse_date_slash {now : PyDate} {text : Str} {d : Str} {c : Bool}
    (h : parse_date now text = (some d, c)) : '/' ∈ d := by
  unfold parse_date parse_date_finalize at h
  split at h
  · simp at h
  · split at h
    · have hd := congrArg Prod.fst h
      simp only [] at hd
      simp at hd
      rw [← hd, fmtDMY]
      exact List.mem_append_right _ (List.mem_cons_self _ _)
    · simp at h

theorem firstDigitRunFuel_digits {fuel : Nat} {s run : Str}
    (h : firstDigitRunFuel fuel s = some run) : run.all Char.isDigit = true := by
  induction fuel generalizing s with
  | zero => cases h
  | succ fuel ih =>
    simp only [firstDigitRunFuel] at h
    split at h
    · cases h
    · split at h
      · cases h
        exact List.all_eq_true.mpr (fun c hc => List.mem_takeWhile_imp hc)
      · exact ih h

/-- Any amount string produced by `parse_amount` is a digit string. -/
theorem parse_amount_digits {l : Str} {p : Str} {c : Bool}
    (h : parse_amount l = (some p, c)) : p.all Char.isDigit = true := by
  unfold parse_amount at h
  dsimp only at h
  split at h
  · cases h
    exact natToStr_all_digit _
  · split at h
    · cases h
      exact natToStr_all_digit _
    · cases h

theorem joinSp_capitalize_ne (ts : List Str) :
    joinSp (ts.map pyCapitalize) ≠ "SKIPPED".toList := by
  match ts with
  | [] => exact length_ne_skipped (by decide)
  | [t] =>
    show pyCapitalize t ≠ _
    match t with
    | [] => exact length_ne_skipped (by decide)
    | c :: rest =>
      show Char.toUpper c :: lowerStr rest ≠ _
      intro hc
      have htail : lowerStr rest = "KIPPED".toList := by
        have := List.tail_eq_of_cons_eq hc
        exact this
      exact lowerStr_ne_of_upper_mem (d := Char.ofNat 75) (by decide) (by decide)
        (by decide) htail
  | t1 :: t2 :: ts =>
    show pyCapitalize t1 ++ ' ' :: joinSp (pyCapitalize t2 :: ts.map pyCapitalize) ≠ _
    exact ne_of_mem_not_mem
      (List.mem_append_right _ (List.mem_cons_self _ _)) (by decide)

/-- Any name produced by `parse_name` differs from the literal SKIPPED. -/
theorem parse_name_ne_skipped {l p : Str} {c : Bool}
    (h : parse_name l = (some p, c)) : p ≠ "SKIPPED".toList := by
  unfold parse_name at h
  dsimp only at h
  split at h
  · cases h
  · have hp : joinSp ((splitWs (pyStrip (List.filter
        (fun c => c.isAlpha || c.isWhitespace || decide (c = '.') || decide (c = '-'))
        (pyStrip (subWbCI NAME_NOISE_PHRASES l))))).map pyCapitalize) = p := by
      have := congrArg Prod.fst h
      simpa using this
    rw [← hp]
    exact joinSp_capitalize_ne _

theorem freeDigitRunSearchFuel_pred {pred : Str → Bool} {fuel : Nat} {b : Bool}
    {s run : Str} (h : freeDigitRunSearchFuel pred fuel b s = some run) :
    pred run = true := by
  induction fuel generalizing b s with
  | zero => cases h
  | succ fuel ih =>
    simp only [freeDigitRunSearchFuel] at h
    split at h
    · cases h
    · split at h
      · split at h
        · next hg =>
          cases h
          simp at hg
          exact hg.2
        · exact ih h
      · exact ih h

theorem snd_mem_of_mem_enum {α : Type} {l : List α} {i : Nat} {x : α}
    (h : (i, x) ∈ l.enum) : x ∈ l :=
  List.getElem?_mem (List.mk_mem_enum_iff_getElem?.mp h)

/-- Any value produced by `_smart_parse` differs from the literal SKIPPED. -/
theorem smart_parse_ne_skipped {now : PyDate} {key value : String}
    {field : Field} {p : String} {conf : Bool}
    (hv : strContains value.toList "SKIPPED".toList = false)
    (hch : ∀ c ∈ field.children, c ≠ "SKIPPED")
    (h : smart_parse now key value field = (some p, conf)) : p ≠ "SKIPPED" := by
  unfold smart_parse at h
  dsimp only at h
  split at h
  · -- date branch
    split at h
    · next d c hpd =>
      have hp := congrArg Prod.fst h
      simp only [Option.some.injEq] at hp
      rw [← hp]
      exact mk_ne_of_toList (ne_of_mem_not_mem (parse_date_slash hpd) (by decide))
    · simp at h
  · split at h
    · -- the amount branch produced a result
      next r hr =>
      split at hr
      · split at hr
        · next p2 c2 hpa =>
          cases hr
          have hp := congrArg Prod.fst h
          simp only [Option.some.injEq] at hp
          rw [← hp]
          exact mk_ne_of_toList (all_digit_ne_skipped (parse_amount_digits hpa))
        · split at hr
          · next run hrun =>
            cases hr
            have hp := congrArg Prod.fst h
            simp only [Option.some.injEq] at hp
            rw [← hp]
            exact mk_ne_of_toList (all_digit_ne_skipped (firstDigitRunFuel_digits
              (show firstDigitRunFuel _ _ = some run from hrun)))
          · cases hr
      · cases hr
    · -- no amount result: name / pincode / radio / default chain
      split at h
      · -- name branch
        split at h
        · next pn cn hpn =>
          have hp := congrArg Prod.fst h
          simp only [Option.some.injEq] at hp
          rw [← hp]
          exact mk_ne_of_toList (parse_name_ne_skipped hpn)
        · simp at h
      · split at h
        · -- pincode branch
          split at h
          · next run hrun =>
            have hp := congrArg Prod.fst h
            simp only [Option.some.injEq] at hp
            rw [← hp]
            refine mk_ne_of_toList (length_ne_skipped ?_)
            have := freeDigitRunSearchFuel_pred
              (show freeDigitRunSearchFuel _ _ _ _ = some run from hrun)
            simp at this
            omega
          · simp at h
        · split at h
          · -- radio / checkbox branch
            split at h
            · next c hc =>
              have hp := congrArg Prod.fst h
              simp only [Option.some.injEq] at hp
              rw [← hp]
              exact hch c (List.mem_of_find?_eq_some hc)
            · split at h
              · next c hc =>
                have hp := congrArg Prod.fst h
                simp only [Option.some.injEq] at hp
                obtain ⟨ic, hicm, hic⟩ := List.exists_of_findSome?_eq_some hc
                have hcm : c ∈ field.children := by
                  split at hic
                  · cases hic
                    exact snd_mem_of_mem_enum ((by rfl : (ic.1, ic.2) = ic) ▸ hicm)
                  · split at hic
                    · cases hic
                      exact snd_mem_of_mem_enum ((by rfl : (ic.1, ic.2) = ic) ▸ hicm)
                    · cases hic
                rw [← hp]
                exact hch c hcm
              · simp at h
          · -- default branch
            have hp := congrArg Prod.fst h
            simp only [Option.some.injEq] at hp
            rw [← hp]
            refine mk_ne_of_toList ?_
            intro hc
            obtain ⟨pre, post, hdec⟩ := pyStrip_decomp value.toList
            have hfree := strContains_false_of_part hdec hv
            rw [hc, strContains_self] at hfree
            cases hfree

theorem foldl_fst_ne
    (g : PyDict × List String → String × Val → PyDict × List String)
    (hg : ∀ acc kv, (∀ e ∈ acc.1, e.2 ≠ Val.s "SKIPPED") →
        skFreeVal kv.2 = true → ∀ e ∈ (g acc kv).1, e.2 ≠ Val.s "SKIPPED") :
    ∀ (m : PyDict) (acc : PyDict × List String),
      (∀ kv ∈ m, skFreeVal kv.2 = true) →
      (∀ e ∈ acc.1, e.2 ≠ Val.s "SKIPPED") →
      ∀ e ∈ (m.foldl g acc).1, e.2 ≠ Val.s "SKIPPED" := by
  intro m
  induction m with
  | nil => intro acc _ hacc e he; exact hacc e he
  | cons kv m ih =>
    intro acc hm hacc e he
    rw [List.foldl_cons] at he
    exact ih _ (fun kv' h => hm kv' (List.mem_cons_of_mem _ h))
      (hg acc kv hacc (hm kv (List.mem_cons_self _ _))) e he

theorem ne_skipped_pySet {d : PyDict} {k : String} {v : Val}
    (hd : ∀ e ∈ d, e.2 ≠ Val.s "SKIPPED") (hv : v ≠ Val.s "SKIPPED") :
    ∀ e ∈ pySet d k v, e.2 ≠ Val.s "SKIPPED" := by
  intro e he
  rcases mem_pySet he with rfl | he
  · exact hv
  · exact hd e he

/-- No value written by the Tier-1/Tier-2 validation loop is the literal
SKIPPED, provided the incoming values do not contain it as a substring and
no schema option label is the literal itself. -/
theorem validateExtracted_ne {now : PyDate} {fieldMap : List (String × Field)}
    {extracted : PyDict}
    (hin : ∀ kv ∈ extracted, skFreeVal kv.2 = true)
    (hch : ∀ e ∈ fieldMap, ∀ c ∈ e.2.children, c ≠ "SKIPPED") :
    ∀ kv ∈ (validateExtracted now fieldMap extracted).1,
      kv.2 ≠ Val.s "SKIPPED" := by
  unfold validateExtracted
  refine foldl_fst_ne _ ?_ extracted ([], []) hin (by simp)
  intro acc kv hacc hkv e he
  obtain ⟨k, v⟩ := kv
  cases v with
  | b bv =>
    dsimp only at he hkv
    refine ne_skipped_pySet hacc (by intro hc; cases hc) e he
  | s sv =>
    dsimp only at he hkv
    have hsv := skFreeVal_elim hkv
    rcases hf : fieldMap.find? (fun e => e.1 == k) with _ | fe
    all_goals rw [hf] at he
    all_goals dsimp only at he
    · -- no schema field: the default field has no children
      split at he
      · exact hacc e he
      · next n hn =>
        split at he
        · refine ne_skipped_pySet hacc ?_ e he
          intro hc
          cases n with
          | none => exact skFreeVal_ne hkv (by simpa using hc)
          | some n0 =>
            have := hard_validate_ne_skipped hsv (by rw [hn])
            simp only [Option.getD] at hc
            exact this (by simpa using hc)
        · split at he
          · exact hacc e he
          · next p2 c2 hsp =>
            refine ne_skipped_pySet hacc ?_ e he
            intro hc
            have := smart_parse_ne_skipped hsv (by simp) hsp
            exact this (by simpa using hc)
    · -- a schema field: its labels are not the literal
      have hfe : ∀ c ∈ fe.2.children, c ≠ "SKIPPED" :=
        hch fe (List.mem_of_find?_eq_some hf)
      split at he
      · exact hacc e he
      · next n hn =>
        split at he
        · refine ne_skipped_pySet hacc ?_ e he
          intro hc
          cases n with
          | none => exact skFreeVal_ne hkv (by simpa using hc)
          | some n0 =>
            have := hard_validate_ne_skipped hsv (by rw [hn])
            simp only [Option.getD] at hc
            exact this (by simpa using hc)
        · split at he
          · exact hacc e he
          · next p2 c2 hsp =>
            refine ne_skipped_pySet hacc ?_ e he
            intro hc
            have := smart_parse_ne_skipped hsv hfe hsp
            exact this (by simpa using hc)

/-- The skip-protection block writes at most the marker `N/A`. -/
theorem skipProtectExtracted_ne {um : String} {c : PyDict}
    {fm : List (String × Field)} {fs : FormSchema} {e : PyDict}
    (he : ∀ kv ∈ e, kv.2 ≠ Val.s "SKIPPED") :
    ∀ kv ∈ skipProtectExtracted um c fm fs e, kv.2 ≠ Val.s "SKIPPED" := by
  intro kv hkv
  unfold skipProtectExtracted at hkv
  dsimp only at hkv
  split at hkv
  · split at hkv
    · split at hkv
      · rcases mem_pySet hkv with rfl | hkv2
        · exact (by decide : (Val.s "N/A") ≠ Val.s "SKIPPED")
        · exact he kv hkv2
      · exact he kv hkv
    · exact he kv hkv
  · exact he kv hkv

theorem suppressFields_ne {fs : List Field} {c e : PyDict}
    (he : ∀ kv ∈ e, kv.2 ≠ Val.s "SKIPPED") :
    ∀ kv ∈ suppressFields fs c e, kv.2 ≠ Val.s "SKIPPED" :=
  fun kv hkv => he kv (mem_suppress hkv)

/-- A successful scan comes from a successful anchored match. -/
theorem phoneScanFuel_here {here : Str → Option Str} {nb : Bool} {fuel : Nat}
    {b : Bool} {s r : Str} (h : phoneScanFuel here nb fuel b s = some r) :
    ∃ t, here t = some r := by
  induction fuel generalizing b s with
  | zero => cases h
  | succ fuel ih =>
    simp only [phoneScanFuel] at h
    split at h
    · next r2 hr2 =>
      cases h
      split at hr2
      · cases hr2
      · exact ⟨s, hr2⟩
    · split at h
      · cases h
      · exact ih h

theorem phonePlus91Here_length {s r : Str} (h : phonePlus91Here s = some r) :
    r.length = 10 := by
  unfold phonePlus91Here at h
  split at h
  · dsimp only at h
    rw [Option.ite_none_right_eq_some] at h
    obtain ⟨hC, hr⟩ := h
    cases hr
    simp at hC
    have hlen := hC.1
    rw [List.length_take, Nat.min_eq_left hlen]
  · cases h

theorem phone91Here_length {s r : Str} (h : phone91Here s = some r) :
    r.length = 10 := by
  unfold phone91Here at h
  split at h
  · dsimp only at h
    rw [Option.ite_none_right_eq_some] at h
    obtain ⟨hC, hr⟩ := h
    cases hr
    simp at hC
    have hlen := hC.1.1
    rw [List.length_take, Nat.min_eq_left hlen]
  · cases h

theorem phoneBareHere_length {s r : Str} (h : phoneBareHere s = some r) :
    r.length = 10 := by
  unfold phoneBareHere at h
  dsimp only at h
  rw [Option.ite_none_right_eq_some] at h
  obtain ⟨hC, hr⟩ := h
  cases hr
  simp at hC
  have hlen := hC.1.1
  rw [List.length_take, Nat.min_eq_left hlen]

/-- A captured WhatsApp phone is a ten-digit run or the skip marker. -/
theorem extract_phone_ne_skipped {text : String} {p : String}
    (h : extract_phone_from_message text = some p) : p ≠ "SKIPPED" := by
  unfold extract_phone_from_message at h
  dsimp only at h
  split at h
  · next r hr =>
    cases h
    obtain ⟨t, hs⟩ := phoneScanFuel_here
      (show phoneScanFuel _ _ _ _ _ = some r from hr)
    exact mk_ne_of_toList
      (length_ne_skipped (by rw [phonePlus91Here_length hs]; decide))
  · split at h
    · next r hr =>
      cases h
      obtain ⟨t, hs⟩ := phoneScanFuel_here
        (show phoneScanFuel _ _ _ _ _ = some r from hr)
      exact mk_ne_of_toList
        (length_ne_skipped (by rw [phone91Here_length hs]; decide))
    · split at h
      · next r hr =>
        cases h
        obtain ⟨t, hs⟩ := phoneScanFuel_here
          (show phoneScanFuel _ _ _ _ _ = some r from hr)
        exact mk_ne_of_toList
          (length_ne_skipped (by rw [phoneBareHere_length hs]; decide))
      · split at h
        · cases h
          decide
        · cases h

theorem whatsappCapture_ne {um : String} {ic wc : Bool} {s : Session}
    {e : PyDict} (he : ∀ kv ∈ e, kv.2 ≠ Val.s "SKIPPED") :
    ∀ kv ∈ (whatsappCapture um ic wc s e).1, kv.2 ≠ Val.s "SKIPPED" := by
  intro kv hkv
  unfold whatsappCapture at hkv
  split at hkv
  · split at hkv
    · next p hp =>
      split at hkv
      · exact he kv hkv
      · rcases mem_pySet hkv with rfl | hkv2
        · intro hc
          exact extract_phone_ne_skipped hp (by simpa using hc)
        · exact he kv hkv2
    · exact he kv hkv
  · exact he kv hkv

/-- A next-unfilled answer names a required, unfilled schema field. -/
theorem get_next_unfilled_some {fs : FormSchema} {c : PyDict} {tf : String}
    (h : get_next_unfilled_field fs c = some tf) :
    ∃ f ∈ fs.fields, f.field_name = tf ∧ f.is_required = true ∧
      unfilled (pyGet c tf) = true := by
  unfold get_next_unfilled_field at h
  obtain ⟨f, hf, hsome⟩ := List.exists_of_findSome?_eq_some h
  split at hsome
  · next hg =>
    cases hsome
    simp at hg
    exact ⟨f, hf, rfl, hg.1, hg.2⟩
  · cases hsome

theorem fieldNamesDict_key_mem {fields : List Field} {n : String}
    (h : ∃ f ∈ fields, f.field_name = n) :
    ∃ e ∈ fieldNamesDict fields, e.1 = n := by
  unfold fieldNamesDict
  obtain ⟨f, hf, hfn⟩ := h
  suffices main : ∀ (fs : List Field) (acc : List (String × Field)),
      ((∃ g ∈ fs, g.field_name = n) ∨ (∃ e ∈ acc, e.1 = n)) →
      ∃ e ∈ fs.foldl (fun acc f =>
        if acc.any (fun e => e.1 == f.field_name) then
          acc.map (fun e => if e.1 == f.field_name then (e.1, f) else e)
        else acc ++ [(f.field_name, f)]) acc, e.1 = n by
    exact main fields [] (Or.inl ⟨f, hf, hfn⟩)
  intro fs
  induction fs with
  | nil =>
    intro acc hc
    rcases hc with ⟨g, hg, _⟩ | hacc
    · cases hg
    · exact hacc
  | cons g fs ih =>
    intro acc hc
    rw [List.foldl_cons]
    have hstep : (∃ g0 ∈ fs, g0.field_name = n) ∨
        (∃ e ∈ (if acc.any (fun e => e.1 == g.field_name) then
          acc.map (fun e => if e.1 == g.field_name then (e.1, g) else e)
        else acc ++ [(g.field_name, g)]), e.1 = n) := by
      rcases hc with ⟨g0, hg0, hg0n⟩ | ⟨e, he, hen⟩
      · rcases List.mem_cons.mp hg0 with rfl | hg0
        · right
          split
          · next hany =>
            obtain ⟨e0, he0, he0p⟩ := List.any_eq_true.mp hany
            refine ⟨(e0.1, g0), List.mem_map.mpr ⟨e0, he0, ?_⟩, ?_⟩
            · rw [if_pos he0p]
            · simp only [beq_iff_eq] at he0p
              rw [he0p, hg0n]
          · exact ⟨(g0.field_name, g0), List.mem_append_right _ (by simp), hg0n⟩
        · exact Or.inl ⟨g0, hg0, hg0n⟩
      · right
        split
        · refine ⟨if e.1 == g.field_name then (e.1, g) else e,
            List.mem_map.mpr ⟨e, he, rfl⟩, ?_⟩
          split <;> exact hen
        · exact ⟨e, List.mem_append_left _ he, hen⟩
    exact ih _ hstep

theorem fieldNamesDict_find?_some {fields : List Field} {n : String}
    (h : ∃ f ∈ fields, f.field_name = n) :
    ∃ e, (fieldNamesDict fields).find? (fun e => e.1 == n) = some e ∧
      e.2 ∈ fields ∧ e.2.field_name = n := by
  obtain ⟨e0, he0, he0n⟩ := fieldNamesDict_key_mem h
  have hsome : ((fieldNamesDict fields).find? (fun e => e.1 == n)).isSome := by
    rw [List.find?_isSome]
    exact ⟨e0, he0, by simp [he0n]⟩
  obtain ⟨e, he⟩ := Option.isSome_iff_exists.mp hsome
  have hmem := List.mem_of_find?_eq_some he
  have hkey : (e.1 == n) = true := by simpa using List.find?_some he
  obtain ⟨hin, hname⟩ := fieldNamesDict_entry e hmem
  simp only [beq_iff_eq] at hkey
  exact ⟨e, he, hin, by rw [hname, hkey]⟩

theorem suppressFields_nil (fs : List Field) (c : PyDict) :
    suppressFields fs c [] = [] := by
  induction fs with
  | nil => rfl
  | cons g fs ih =>
    rw [suppressFields_cons]
    split <;> exact ih

theorem should_skip_field_none {f : Field} {st : PyDict}
    (h : f.depends_on = none) : should_skip_field f st = false := by
  unfold should_skip_field
  rw [h]

/-- C2 (amended): provided the model itself does not hand back a value
containing the literal `SKIPPED` (and no option label is that literal), no
field in the turn extraction output carries the literal `SKIPPED`; and on a
skip-intent turn of a session that is NOT awaiting summary confirmation,
with nothing extracted and whose next unfilled field is required (and
dependency-free), nothing is marked for that field and the reply becomes
the localized refusal. (The amendment adds the model-output hypothesis —
the upstream claim is refuted by `c2_counterexample`, where the model emits
the literal `SKIPPED` itself and the pipeline persists it — and the
not-awaiting hypothesis: on an awaiting session a skip-phrase message that
also contains a confirm word as a substring, such as `not sure`, finalizes
through the confirmation short-circuit instead of refusing.) -/
theorem c2_skipped_never_persisted (userMessage : String) (session : Session)
    (formSchema : FormSchema) (lang : String) (now : PyDate) (resp : ModelResp)
    (waConf : Bool)
    (hm : ∀ kv ∈ modelExtracted resp, skFreeVal kv.2 = true)
    (hs : ∀ f ∈ formSchema.fields, ∀ c ∈ f.children, c ≠ "SKIPPED") :
    (∀ k, pyGet (run_chat_turn userMessage session formSchema lang now resp
        waConf).1.extracted k ≠ some (Val.s "SKIPPED")) ∧
    (session.awaiting_summary_confirm = false →
      detect_skip_intent userMessage = true →
      (validateExtracted now (fieldNamesDict formSchema.fields)
        (smart_name_split (clean_extracted (modelExtracted resp) formSchema)
          formSchema session.collected (is_correction userMessage))).1 = [] →
      ∀ tf, get_next_unfilled_field formSchema session.collected = some tf →
        tf ≠ "_whatsapp_phone" →
        (∀ f ∈ formSchema.fields, f.field_name = tf →
          f.is_required = true ∧ f.depends_on = none) →
        pyGet (run_chat_turn userMessage session formSchema lang now resp
            waConf).1.extracted tf = none ∧
        (run_chat_turn userMessage session formSchema lang now resp
            waConf).1.reply =
          (if modelLangMerge resp (autoSwitchLang userMessage lang) = "hi"
           then skipBlockReplyHi (labelOf formSchema tf)
           else skipBlockReplyEn (labelOf formSchema tf))) := by
  have hch : ∀ e ∈ fieldNamesDict formSchema.fields,
      ∀ c ∈ e.2.children, c ≠ "SKIPPED" :=
    fun e he => hs e.2 (fieldNamesDict_entry e he).1
  have hvalne : ∀ kv ∈ (validateExtracted now (fieldNamesDict formSchema.fields)
      (smart_name_split (clean_extracted (modelExtracted resp) formSchema)
        formSchema session.collected (is_correction userMessage))).1,
      kv.2 ≠ Val.s "SKIPPED" :=
    validateExtracted_ne (smart_name_split_skfree (clean_extracted_skfree hm)) hch
  constructor
  · intro k hget
    unfold run_chat_turn at hget
    dsimp only at hget
    by_cases hb : (session.awaiting_summary_confirm &&
        hasConfirmWord userMessage) = true
    · rw [if_pos hb] at hget
      dsimp only at hget
      simp [pyGet] at hget
    · rw [if_neg hb] at hget
      dsimp only at hget
      exact whatsappCapture_ne
        (suppressFields_ne (skipProtectExtracted_ne hvalne))
        _ (pyGet_mem hget) rfl
  · intro hawait hskip hval tf htf hwtf hreq
    obtain ⟨f0, hf0, hf0n, hf0r, hf0u⟩ := get_next_unfilled_some htf
    obtain ⟨fe, hfind, hfe_mem, hfe_name⟩ :=
      fieldNamesDict_find?_some ⟨f0, hf0, hf0n⟩
    obtain ⟨hfe_req, _⟩ := hreq fe.2 hfe_mem hfe_name
    obtain ⟨hf0r2, hf0dep⟩ := hreq f0 hf0 hf0n
    have hskipE : skipProtectExtracted userMessage session.collected
        (fieldNamesDict formSchema.fields) formSchema [] = [] := by
      unfold skipProtectExtracted
      simp [hskip, htf, hfind, hfe_req]
    have hmerged : pyGet (pyMerge session.collected ([] : PyDict)) tf
        = pyGet session.collected tf := by
      rw [pyGet_pyMerge]
      rfl
    have hard : formSchema.fields.all (fun f =>
        if f.is_required && !should_skip_field f (pyMerge session.collected []) then
          !unfilled (pyGet (pyMerge session.collected []) f.field_name)
        else true) = false := by
      cases hall : formSchema.fields.all (fun f =>
          if f.is_required && !should_skip_field f (pyMerge session.collected []) then
            !unfilled (pyGet (pyMerge session.collected []) f.field_name)
          else true) with
      | false => rfl
      | true =>
        exfalso
        have hf := List.all_eq_true.mp hall f0 hf0
        rw [hf0r, should_skip_field_none hf0dep, hf0n, hmerged, hf0u] at hf
        simp at hf
    constructor
    · unfold run_chat_turn
      simp only [hawait, Bool.false_and, Bool.false_eq_true, if_false]
      rw [hval, hskipE, suppressFields_nil]
      rw [whatsappCapture_pyGet_ne _ _ _ _ _ _ hwtf]
      rfl
    · unfold run_chat_turn
      simp only [hawait, Bool.false_and, Bool.false_eq_true, if_false]
      rw [hval, hskipE, suppressFields_nil, hard]
      simp only [Bool.and_false, Bool.false_and, Bool.false_eq_true, if_false]
      unfold skipProtectReply
      simp [hskip, htf, hfind, hfe_req]
      unfold autoSwitchLang
      rw [show userMessage.toList = userMessage.data from rfl]
      rcases hdl : detect_language userMessage.data with _ | al
      · rfl
      · by_cases h : al = lang
        · simp [h]
        · simp [h]

/-- Counterexample to C2 as stated: the model can emit the literal
`SKIPPED` as a value, and the pipeline persists it for the required
`purpose` field in the turn extraction output. -/
theorem c2_counterexample :
    ({ field_name := "purpose", is_required := true, semantic_label := "Purpose" }
      : Field) ∈ purposeSchema.fields ∧
    pyGet (run_chat_turn "hello" {} purposeSchema "en" ⟨2025, 1, 1⟩
        (.tool { reply := "ok", extracted := [("purpose", .s "SKIPPED")] })
        false).1.extracted "purpose" = some (.s "SKIPPED") := by
  decide

/-- Witness for C2 at a concrete skip-intent turn: the required `purpose`
field receives nothing and the reply is the localized refusal. -/
theorem c2_witness :
    (∀ kv ∈ modelExtracted (.tool { reply := "ok" }), skFreeVal kv.2 = true) ∧
    (∀ f ∈ purposeSchema.fields, ∀ c ∈ f.children, c ≠ "SKIPPED") ∧
    detect_skip_intent "please skip this" = true ∧
    pyGet (run_chat_turn "please skip this" {} purposeSchema "en" ⟨2025, 1, 1⟩
        (.tool { reply := "ok" }) false).1.extracted "purpose" = none ∧
    (run_chat_turn "please skip this" {} purposeSchema "en" ⟨2025, 1, 1⟩
        (.tool { reply := "ok" }) false).1.reply = skipBlockReplyEn "Purpose" :=
  ⟨by decide, by decide, by decide,
   ((c2_skipped_never_persisted "please skip this" {} purposeSchema "en"
        ⟨2025, 1, 1⟩ (.tool { reply := "ok" }) false (by decide) (by decide)).2
      rfl (by decide) (by decide) "purpose" (by decide) (by decide)
      (by decide)).1,
   (((c2_skipped_never_persisted "please skip this" {} purposeSchema "en"
        ⟨2025, 1, 1⟩ (.tool { reply := "ok" }) false (by decide) (by decide)).2
      rfl (by decide) (by decide) "purpose" (by decide) (by decide)
      (by decide)).2).trans (by decide)⟩

end Vaarta

